import Mathlib

/-!
# libcalby: a verification development

Shallow embedding of `src/calby.c` / `src/calby.h`.

Conventions of the embedding:

* `long` and `int` values are mathematical integers (`Int`); signed overflow is
  undefined behaviour in C, so the embedding describes the executions in which
  none occurs.  C's `/` and `%` on `long` are `Int.tdiv` and `Int.tmod`
  (truncation toward zero).  Where a statement reaches inputs on which the
  compiled code overflows, `wrap_long` gives the 64-bit result and
  `cal_mjd_days_wrap` the day count of `cal_mjd` computed in 64 bits.
* `unsigned long` and `uint64_t` values are naturals reduced modulo `2 ^ 64`
  after every operation that can wrap.
* a `char` buffer is a list of byte values (`Nat`, the value of the byte read
  as `unsigned char`); a store into a `char` keeps the value modulo `256`.
* `double` values are exact rationals (`ℚ`): the rounding of floating-point
  arithmetic is not modelled, except for the conversion of a `long` to
  `double`, `double_of_long`, which tells on which day counts `cal_mjd` is
  exact.
-/

namespace Calby

/-! ## TAI utilities: `cal_tai_pack` / `cal_tai_unpack` -/

/-- Wrap-around of `uint64_t` arithmetic. -/
def u64 (n : Nat) : Nat := n % 2 ^ 64

/-- The value kept by a store into a `char` (read back as `unsigned char`). -/
def to_char (n : Nat) : Nat := n % 256

/-- Embedding of `cal_tai_pack(char *s, uint64_t x)`: the eight bytes
`s[0]`, ..., `s[7]` left in the buffer.  The statements of the source run
from `s[7]` down to `s[0]`, each followed by `x >>= 8`. -/
def cal_tai_pack (x : Nat) : List Nat :=
  let s7 := to_char (x &&& 255); let x := x >>> 8
  let s6 := to_char (x &&& 255); let x := x >>> 8
  let s5 := to_char (x &&& 255); let x := x >>> 8
  let s4 := to_char (x &&& 255); let x := x >>> 8
  let s3 := to_char (x &&& 255); let x := x >>> 8
  let s2 := to_char (x &&& 255); let x := x >>> 8
  let s1 := to_char (x &&& 255); let x := x >>> 8
  let s0 := to_char x
  [s0, s1, s2, s3, s4, s5, s6, s7]

/-- Embedding of `cal_tai_unpack(const char *s, uint64_t *u)`: the value left
in `*u`.  The function reads `s[0]`, ..., `s[7]`; a buffer shorter than eight
bytes is outside its contract and gives `none`. -/
def cal_tai_unpack (s : List Nat) : Option Nat :=
  match s with
  | s0 :: s1 :: s2 :: s3 :: s4 :: s5 :: s6 :: s7 :: _ =>
    let u := to_char s0
    let u := u64 (u <<< 8); let u := u64 (u + to_char s1)
    let u := u64 (u <<< 8); let u := u64 (u + to_char s2)
    let u := u64 (u <<< 8); let u := u64 (u + to_char s3)
    let u := u64 (u <<< 8); let u := u64 (u + to_char s4)
    let u := u64 (u <<< 8); let u := u64 (u + to_char s5)
    let u := u64 (u <<< 8); let u := u64 (u + to_char s6)
    let u := u64 (u <<< 8); let u := u64 (u + to_char s7)
    some u
  | _ => none

/-! ## Machine conversions -/

/-- Conversion of a `long` (or of an `int` promoted to `long`) to
`unsigned long` / `uint64_t`: reduction modulo `2 ^ 64`. -/
def to_ulong (i : Int) : Nat := (i % 2 ^ 64).toNat

/-- Conversion of an `unsigned long` to `long` (two's complement). -/
def to_long (u : Nat) : Int := if u < 2 ^ 63 then (u : Int) else (u : Int) - 2 ^ 64

/-- A store of a `long` value into a `char`, read back as `unsigned char`. -/
def char_of_long (v : Int) : Nat := (v % 256).toNat

/-- Conversion `(long) x` of a `double`: truncation toward zero. -/
def long_of_double (x : ℚ) : Int := Int.tdiv x.num x.den

/-! ## Date and time record -/

/-- The record `cal_datetime_t` of `calby.h`: seven `long` fields. -/
structure cal_datetime_t where
  year : Int
  mon : Int
  day : Int
  hour : Int
  min : Int
  sec : Int
  off : Int
deriving DecidableEq, Repr

/-! ## ISO text: `cal_parse` / `cal_format`

A C string is the list of its bytes; the terminating NUL is the end of the
list (a `0` byte inside the list stops every scan in the same way).
`cal_parse` never reads past the terminator. -/

/-- The value `c = (unsigned char) (*t - '0')` for the byte `ch = *t`. -/
def digit_of (ch : Nat) : Nat := (ch + 208) % 256

/-- The loop `while ((c = (unsigned char) (*t - '0')) <= 9) { z = z * 10 + c; ++t; }`
started with accumulator `z` (an `unsigned long`): the final `z` and the rest
of the text.  On the terminator `c` is `208`, so the loop stops. -/
def scan_digits : List Nat → Nat → Nat × List Nat
  | [], z => (z, [])
  | ch :: t, z =>
    if digit_of ch ≤ 9 then scan_digits t (u64 (z * 10 + digit_of ch)) else (z, ch :: t)

/-- The loop `while ((*t == ' ') || (*t == '\t') || (*t == 'T')) ++t;`. -/
def skip_date_sep : List Nat → List Nat
  | [] => []
  | ch :: t => if ch = 32 ∨ ch = 9 ∨ ch = 84 then skip_date_sep t else ch :: t

/-- The loop `while ((*t == ' ') || (*t == '\t')) ++t;`. -/
def skip_blank : List Nat → List Nat
  | [] => []
  | ch :: t => if ch = 32 ∨ ch = 9 then skip_blank t else ch :: t

/-- The test `if (*t++ != c) return NULL;`: the rest of the text when the
byte is `c`. -/
def expect_char (c : Nat) : List Nat → Option (List Nat)
  | [] => none
  | ch :: t => if ch ≠ c then none else some t

/-- One offset position,
`c = (unsigned char) (*t++ - '0'); if (c > 9) return NULL;`. -/
def offset_digit : List Nat → Option (Nat × List Nat)
  | [] => none
  | ch :: t => if digit_of ch > 9 then none else some (digit_of ch, t)

/-- The offset sign,
`if (*t == '+') sign = 1; else if (*t == '-') sign = -1; else return NULL; ++t;`. -/
def offset_sign : List Nat → Option (Int × List Nat)
  | [] => none
  | ch :: t => if ch = 43 then some (1, t) else if ch = 45 then some (-1, t) else none

/-- The leading sign of the year, `if (*t == '-') { ++t; sign = -1; }` with
`sign` initialised to `1`. -/
def year_sign : List Nat → Int × List Nat
  | [] => (1, [])
  | ch :: t => if ch = 45 then (-1, t) else (1, ch :: t)

/-- The optional seconds: `if (*t != ':') dt->sec = 0; else { ++t; ... dt->sec = z; }`,
giving the value stored in `dt->sec` and the rest of the text. -/
def opt_seconds : List Nat → Int × List Nat
  | [] => (0, [])
  | ch :: t =>
    if ch ≠ 58 then (0, ch :: t)
    else
      let (z, t) := scan_digits t 0
      (to_long z, t)

/-- Embedding of `cal_parse(const char *s, cal_datetime_t *dt)`: `none` is the
`NULL` return, `some dt` the record filled in on success. -/
def cal_parse (s : List Nat) : Option cal_datetime_t := do
  let (sign, t) := year_sign s
  let (z, t) := scan_digits t 0
  let year := to_long (u64 (z * to_ulong sign))
  let t ← expect_char 45 t
  let (z, t) := scan_digits t 0
  let mon := to_long z
  let t ← expect_char 45 t
  let (z, t) := scan_digits t 0
  let day := to_long z
  let t := skip_date_sep t
  let (z, t) := scan_digits t 0
  let hour := to_long z
  let t ← expect_char 58 t
  let (z, t) := scan_digits t 0
  let min := to_long z
  let (sec, t) := opt_seconds t
  let t := skip_blank t
  let (sign, t) ← offset_sign t
  let (c, t) ← offset_digit t
  let z := c
  let (c, t) ← offset_digit t
  let z := u64 (z * 10 + c)
  let (c, t) ← offset_digit t
  let z := u64 (z * 6 + c)
  let (c, _) ← offset_digit t
  let z := u64 (z * 10 + c)
  let off := to_long (u64 (z * to_ulong sign))
  return { year := year, mon := mon, day := day, hour := hour, min := min, sec := sec,
           off := off }

/-- Embedding of `cal_format(const cal_datetime_t *t, char *buf)`: the bytes
stored at `buf[0]`, ..., `buf[25]`, in this order. -/
def cal_format (t : cal_datetime_t) : List Nat :=
  let o := if t.off < 0 then (-1) * t.off else t.off
  let h := Int.tdiv o 60
  let m := o - h * 60
  [ char_of_long (Int.tdiv t.year 1000 + 48),
    char_of_long (Int.tmod (Int.tdiv t.year 100) 10 + 48),
    char_of_long (Int.tmod (Int.tdiv t.year 10) 10 + 48),
    char_of_long (Int.tmod t.year 10 + 48),
    45,
    char_of_long (Int.tdiv t.mon 10 + 48),
    char_of_long (Int.tmod t.mon 10 + 48),
    45,
    char_of_long (Int.tdiv t.day 10 + 48),
    char_of_long (Int.tmod t.day 10 + 48),
    32,
    char_of_long (Int.tdiv t.hour 10 + 48),
    char_of_long (Int.tmod t.hour 10 + 48),
    58,
    char_of_long (Int.tdiv t.min 10 + 48),
    char_of_long (Int.tmod t.min 10 + 48),
    58,
    char_of_long (Int.tdiv t.sec 10 + 48),
    char_of_long (Int.tmod t.sec 10 + 48),
    32,
    (if t.off < 0 then 45 else 43),
    char_of_long (Int.tdiv h 10 + 48),
    char_of_long (Int.tmod h 10 + 48),
    char_of_long (Int.tdiv m 10 + 48),
    char_of_long (Int.tmod m 10 + 48),
    0 ]

/-! ## Modified Julian Date: `cal_mjd`, `cal_jd` -/

/-- The table `_times365`. -/
def _times365 : List Int := [0, 365, 730, 1095]

/-- The table `_times36524`. -/
def _times36524 : List Int := [0, 36524, 73048, 109572]

/-- The table `_montab`. -/
def _montab : List Int := [0, 31, 61, 92, 122, 153, 184, 214, 245, 275, 306, 337]

/-- A read `tab[i]` of a static table with a `long` index: `none` when the
index falls outside the table. -/
def table_at (tab : List Int) (i : Int) : Option Int :=
  if i < 0 then none else tab[i.toNat]?

/-- The `long d` held by `cal_mjd` when it reaches its `return`.  A branch
`if (c) { m = ...; y = ...; }` is written as one conditional per variable, the
condition read before either is updated. -/
def cal_mjd_days (t : cal_datetime_t) : Option Int := do
  let d := t.day - 678882
  let m := t.mon - 1
  let y := t.year
  let d := d + 146097 * Int.tdiv y 400
  let y := Int.tmod y 400
  let y := if m ≥ 2 then y else y - 1
  let m := if m ≥ 2 then m - 2 else m + 10
  let y := y + Int.tdiv m 12
  let m := Int.tmod m 12
  let y := if m < 0 then y - 1 else y
  let m := if m < 0 then m + 12 else m
  let d := d + (← table_at _montab m)
  let d := d + 146097 * Int.tdiv y 400
  let y := Int.tmod y 400
  let d := if y < 0 then d - 146097 else d
  let y := if y < 0 then y + 400 else y
  let d := d + (← table_at _times365 (Int.land y 3))
  let y := Int.shiftRight y 2
  let d := d + 1461 * Int.tmod y 25
  let y := Int.tdiv y 25
  let d := d + (← table_at _times36524 (Int.land y 3))
  return d

/-- The floor-division reference day count against which `cal_mjd` is
compared (the `/` of `Int` with a positive divisor is floor division):
`365 Y + ⌊Y/4⌋ - ⌊Y/100⌋ + ⌊Y/400⌋ + montab[M] + d - 678882`
with `(Y, M) = (y, m - 3)` if `m ≥ 3` and `(y - 1, m + 9)` otherwise. -/
def mjd_reference (y m d : Int) : Int :=
  let Y := if m ≥ 3 then y else y - 1
  let M := if m ≥ 3 then m - 3 else m + 9
  365 * Y + Y / 4 - Y / 100 + Y / 400 +
    ([0, 31, 61, 92, 122, 153, 184, 214, 245, 275, 306, 337].getD M.toNat 0 : Int) + d - 678882

/-- The `long` converted to `double` in the `return` of `cal_mjd`:
`((t->sec == 60) ? t->sec - 1 : t->sec) + t->min * 60 + t->hour * 3600`. -/
def cal_mjd_secs (t : cal_datetime_t) : Int :=
  (if t.sec = 60 then t.sec - 1 else t.sec) + t.min * 60 + t.hour * 3600

/-- Embedding of `cal_mjd(const cal_datetime_t *t)`. -/
def cal_mjd (t : cal_datetime_t) : Option ℚ := do
  let d ← cal_mjd_days t
  return (d : ℚ) + (cal_mjd_secs t : ℚ) / 86400

/-- The macro `cal_jd(_x)`, `(cal_mjd(_x) + 2400000.5)`. -/
def cal_jd (t : cal_datetime_t) : Option ℚ := do
  let mjd ← cal_mjd t
  return mjd + 2400000.5

/-! ## TAI stamp of a date: `cal_tai` -/

/-- Embedding of `cal_tai(const cal_datetime_t *t)`. -/
def cal_tai (t : cal_datetime_t) : Option Nat := do
  let d := long_of_double (← cal_mjd t)
  let s := t.hour * 60 + t.min
  let s := (s - t.off) * 60 + t.sec
  return to_ulong (d * 86400 + 4611686014920671114 + s)

/-! ## Julian calendar: `cal_julian` -/

/-- The macro `_FL(_x)`,
`((_x < 0) ? (((long)(_x)) - 1) : ((long)(_x)))`. -/
def _FL (x : ℚ) : Int := if x < 0 then long_of_double x - 1 else long_of_double x

/-- Embedding of `cal_julian(cal_datetime_t *t)`: the record after the call. -/
def cal_julian (t : cal_datetime_t) : Option cal_datetime_t := do
  let x := _FL ((← cal_jd t) + 0.5)
  let b := x + 1524
  let c := _FL (((b : ℚ) - 122.1) / 365.25)
  let d := _FL (365.25 * (c : ℚ))
  let e := _FL (((b - d : Int) : ℚ) / 30.6001)
  let mon := _FL (((if e < 14 then e - 1 else e - 13 : Int) : ℚ))
  let year := _FL (((if mon > 2 then c - 4716 else c - 4715 : Int) : ℚ))
  let day := b - d - _FL (30.6001 * (e : ℚ))
  let year := if year < 1 then year - 1 else year
  return { t with year := year, mon := mon, day := day }

/-! ## Calendar vocabulary of the claims

The predicates below are not part of `calby.c`; they say what a valid civil
date and a valid time of day are, in the words of the specification. -/

/-- Number of days of month `m` of year `y` in the Gregorian calendar. -/
def days_in_month (y m : Int) : Int :=
  if m = 2 then (if (y % 4 = 0 ∧ y % 100 ≠ 0) ∨ y % 400 = 0 then 29 else 28)
  else if m = 4 ∨ m = 6 ∨ m = 9 ∨ m = 11 then 30
  else 31

/-- A valid Gregorian month and day. -/
def valid_gregorian (t : cal_datetime_t) : Prop :=
  1 ≤ t.mon ∧ t.mon ≤ 12 ∧ 1 ≤ t.day ∧ t.day ≤ days_in_month t.year t.mon

/-- A time of day from `00:00:00` to `23:59:59`. -/
def valid_time (t : cal_datetime_t) : Prop :=
  (0 ≤ t.hour ∧ t.hour ≤ 23) ∧ (0 ≤ t.min ∧ t.min ≤ 59) ∧ (0 ≤ t.sec ∧ t.sec ≤ 59)

/-- Number of days of month `m` of year `y` in the Julian calendar. -/
def julian_days_in_month (y m : Int) : Int :=
  if m = 2 then (if y % 4 = 0 then 29 else 28)
  else if m = 4 ∨ m = 6 ∨ m = 9 ∨ m = 11 then 30
  else 31

/-- Day count of the date `y-m-d` of the Julian calendar, on the scale of
`mjd_reference`: every fourth year is a leap year and the two calendars agree
in the third century, `365 Y + ⌊Y/4⌋ + montab[M] + d - 678884`. -/
def julian_reference (y m d : Int) : Int :=
  let Y := if m ≥ 3 then y else y - 1
  let M := if m ≥ 3 then m - 3 else m + 9
  365 * Y + Y / 4 +
    ([0, 31, 61, 92, 122, 153, 184, 214, 245, 275, 306, 337].getD M.toNat 0 : Int) + d - 678884

/-- Chronological order of two dates `y1-m1-d1 ≤ y2-m2-d2`. -/
def date_le (y1 m1 d1 y2 m2 d2 : Int) : Prop :=
  y1 < y2 ∨ (y1 = y2 ∧ (m1 < m2 ∨ (m1 = m2 ∧ d1 ≤ d2)))

/-! ## Leap seconds

The global `cal_leapsecs` is explicit state.  `count` and `list` are set
together by the loader, so the state is the list of entries and `count` is its
length.  `int` results are mathematical integers: the loader measures the
file with an `int`, so a table holds fewer than `2 ^ 31` entries. -/

/-- The state `struct _cal_leapsecs_s` (its two function pointers are fixed). -/
structure cal_leapsecs_s where
  list : List Nat
deriving DecidableEq, Repr

/-- The field `count`. -/
def cal_leapsecs_s.count (st : cal_leapsecs_s) : Nat := st.list.length

/-- The in-place conversion loop of `cal_leapsecs_load`: every complete group
of eight bytes is replaced by its `cal_tai_unpack` value. -/
def unpack_entries : List Nat → List Nat
  | s0 :: s1 :: s2 :: s3 :: s4 :: s5 :: s6 :: s7 :: rest =>
    match cal_tai_unpack [s0, s1, s2, s3, s4, s5, s6, s7] with
    | some u => u :: unpack_entries rest
    | none => unpack_entries rest
  | _ => []

/-- Embedding of `cal_leapsecs_load(int fd)`.  The descriptor is what
`fstat`, `malloc` and `read` deliver: `none` when one of them fails, else the
bytes of the file.  Result: the `int` returned and the state afterwards. -/
def cal_leapsecs_load (fd : Option (List Nat)) (st : cal_leapsecs_s) :
    Int × cal_leapsecs_s :=
  match fd with
  | none => (-1, st)
  | some bytes =>
    let st1 : cal_leapsecs_s := { list := unpack_entries bytes }
    ((st1.count : Int), st1)

/-- Embedding of `cal_leapsecs_init(void)`.  `file` is the outcome of
`open(CAL_LEAPSECS_FILE, O_RDONLY)`: `none` when it fails, else the
descriptor handed to `cal_leapsecs_load`. -/
def cal_leapsecs_init (file : Option (Option (List Nat))) (st : cal_leapsecs_s) :
    Int × cal_leapsecs_s :=
  if st.count ≠ 0 then ((st.count : Int), st)
  else
    match file with
    | none => (-1, st)
    | some fd => cal_leapsecs_load fd st

/-- The loop of `cal_leapsecs_sub` and of `cal_leapsecs_get`,
`for (...; i < count; i++, r++) if (tai < list[i]) break;`, over the entries
from index `i` on, started with counter `r`. -/
def scan_le (tai : Nat) : List Nat → Int → Int
  | [], r => r
  | e :: rest, r => if tai < e then r else scan_le tai rest (r + 1)

/-- The loop of `cal_leapsecs_add`,
`for (...; i < count; i++, r++) if (*tai < list[i]) break; else if (*tai == list[i]) r--;`.
The cell `*tai` is carried through the loop together with `r`. -/
def scan_add : List Nat → Nat × Int → Nat × Int
  | [], (tai, r) => (tai, r)
  | e :: rest, (tai, r) =>
    if tai < e then (tai, r)
    else if tai = e then scan_add rest (tai, (r - 1) + 1)
    else scan_add rest (tai, r + 1)

/-- The loop of `cal_isleapsec`. -/
def scan_isleap (tai : Nat) : List Nat → Int
  | [] => 0
  | e :: rest => if tai < e then 0 else if tai = e then 1 else scan_isleap tai rest

/-- Embedding of `cal_leapsecs_sub(uint64_t *tai)`: the `int` returned, the
value of `*tai` afterwards and the state afterwards. -/
def cal_leapsecs_sub (file : Option (Option (List Nat))) (st : cal_leapsecs_s) (tai : Nat) :
    Int × Nat × cal_leapsecs_s :=
  let (n, st) := cal_leapsecs_init file st
  if n = -1 then (-1, tai, st)
  else
    let r := scan_le tai st.list 0
    (r, to_ulong ((tai : Int) - r), st)

/-- Embedding of `cal_leapsecs_add(uint64_t *tai)`: the `int` returned, the
value of `*tai` afterwards and the state afterwards. -/
def cal_leapsecs_add (file : Option (Option (List Nat))) (st : cal_leapsecs_s) (tai : Nat) :
    Int × Nat × cal_leapsecs_s :=
  let (n, st) := cal_leapsecs_init file st
  if n = -1 then (-1, tai, st)
  else
    let (cell, r) := scan_add st.list (tai, 0)
    (r, to_ulong ((cell : Int) + r), st)

/-- Embedding of `cal_isleapsec(uint64_t tai)`: the `int` returned and the
state afterwards. -/
def cal_isleapsec (file : Option (Option (List Nat))) (st : cal_leapsecs_s) (tai : Nat) :
    Int × cal_leapsecs_s :=
  let (n, st) := cal_leapsecs_init file st
  if n = -1 then (-1, st)
  else (scan_isleap tai st.list, st)

/-- Embedding of `cal_leapsecs_get(uint64_t tai)`: the `int` returned and the
state afterwards. -/
def cal_leapsecs_get (file : Option (Option (List Nat))) (st : cal_leapsecs_s) (tai : Nat) :
    Int × cal_leapsecs_s :=
  let (n, st) := cal_leapsecs_init file st
  if n = -1 then (-1, st)
  else (scan_le tai st.list 0, st)

/-! ## Machine arithmetic outside the exact range

The embeddings above read a `long` as an integer and a `double` as a rational,
which is what the machine computes as long as no `long` result leaves 64 bits
and no integer converted to `double` needs more than 53 bits.  The definitions
of this section say what the machine keeps beyond that: they are used to state
on which inputs the exact reading holds, and what happens outside. -/

/-- The value left in a `long` by an arithmetic result `i` that does not fit:
reduction to 64 bits, two's complement (the behaviour of the compiled code;
the C standard leaves signed overflow undefined). -/
def wrap_long (i : Int) : Int := (i + 2 ^ 63) % 2 ^ 64 - 2 ^ 63

/-- Number of low bits of the magnitude `a` that do not fit the 53-bit
significand of a `double`: the least `e` with `a < 2 ^ (53 + e)`, searched
upwards from `e` in at most `fuel` steps (`11` steps from `0` cover every
magnitude below `2 ^ 64`). -/
def excess_bits : Nat → Nat → Nat → Nat
  | 0, _, e => e
  | fuel + 1, a, e => if a < 2 ^ (53 + e) then e else excess_bits fuel a (e + 1)

/-- Conversion of a `long` to `double` (IEEE 754 binary64, round to nearest,
ties to even), as applied to `d` in `return d + (double)(...) / 86400.0`.  The
result is an integer: `d` itself when its magnitude is below `2 ^ 53`, else the
nearest multiple of `2 ^ e` where `e` is the number of bits in excess. -/
def double_of_long (d : Int) : Int :=
  let a := d.natAbs
  let e := excess_bits 11 a 0
  let q := a / 2 ^ e
  let r := a % 2 ^ e
  let q := if 2 ^ e < 2 * r ∨ (2 ^ e = 2 * r ∧ q % 2 = 1) then q + 1 else q
  if d < 0 then -((q * 2 ^ e : Nat) : Int) else ((q * 2 ^ e : Nat) : Int)

/-- The `long d` held by `cal_mjd` when it reaches its `return`, with every
`long` result reduced to 64 bits: the statements of `cal_mjd_days`, each
arithmetic result passed through `wrap_long`. -/
def cal_mjd_days_wrap (t : cal_datetime_t) : Option Int := do
  let d := wrap_long (t.day - 678882)
  let m := wrap_long (t.mon - 1)
  let y := t.year
  let d := wrap_long (d + wrap_long (146097 * Int.tdiv y 400))
  let y := Int.tmod y 400
  let y := if m ≥ 2 then y else wrap_long (y - 1)
  let m := if m ≥ 2 then wrap_long (m - 2) else wrap_long (m + 10)
  let y := wrap_long (y + Int.tdiv m 12)
  let m := Int.tmod m 12
  let y := if m < 0 then wrap_long (y - 1) else y
  let m := if m < 0 then wrap_long (m + 12) else m
  let d := wrap_long (d + (← table_at _montab m))
  let d := wrap_long (d + wrap_long (146097 * Int.tdiv y 400))
  let y := Int.tmod y 400
  let d := if y < 0 then wrap_long (d - 146097) else d
  let y := if y < 0 then wrap_long (y + 400) else y
  let d := wrap_long (d + (← table_at _times365 (Int.land y 3)))
  let y := Int.shiftRight y 2
  let d := wrap_long (d + wrap_long (1461 * Int.tmod y 25))
  let y := Int.tdiv y 25
  let d := wrap_long (d + (← table_at _times36524 (Int.land y 3)))
  return d

/-- The three table indexes read by `cal_mjd`, in source order: the `m` of
`_montab[m]`, the `y & 3` of `_times365[y & 3]` and the `y & 3` of
`_times36524[y & 3]`, each with the value the variables hold at that read,
every `long` result reduced to 64 bits as in `cal_mjd_days_wrap`. -/
def cal_mjd_indexes (t : cal_datetime_t) : Int × Int × Int :=
  let m := wrap_long (t.mon - 1)
  let y := t.year
  let y := Int.tmod y 400
  let y := if m ≥ 2 then y else wrap_long (y - 1)
  let m := if m ≥ 2 then wrap_long (m - 2) else wrap_long (m + 10)
  let y := wrap_long (y + Int.tdiv m 12)
  let m := Int.tmod m 12
  let y := if m < 0 then wrap_long (y - 1) else y
  let m := if m < 0 then wrap_long (m + 12) else m
  let i1 := m
  let y := Int.tmod y 400
  let y := if y < 0 then wrap_long (y + 400) else y
  let i2 := Int.land y 3
  let y := Int.shiftRight y 2
  let y := Int.tdiv y 25
  let i3 := Int.land y 3
  (i1, i2, i3)

/-! ## Day of the week: `cal_weekday` -/

/-- Embedding of `cal_weekday(const cal_datetime_t *t)`.  The branch
`if (m < 3) { m += 13; y -= 1; } else m += 1;` is one conditional per
variable, the condition read before `m` is updated. -/
def cal_weekday (t : cal_datetime_t) : Int :=
  let m := t.mon
  let y := t.year
  let d := t.day
  let y := if y < 100 then y + 2000 else y
  let y := if m < 3 then y - 1 else y
  let m := if m < 3 then m + 13 else m + 1
  Int.tmod (d + Int.tdiv (26 * m) 10 + y + Int.tdiv y 4 - Int.tdiv y 100 + Int.tdiv y 400 + 5) 7

/-- The civil date following `t` in the Gregorian calendar (time of day and
offset kept); vocabulary of the claims, not part of `calby.c`. -/
def next_day (t : cal_datetime_t) : cal_datetime_t :=
  if t.day < days_in_month t.year t.mon then { t with day := t.day + 1 }
  else if t.mon < 12 then { t with mon := t.mon + 1, day := 1 }
  else { t with year := t.year + 1, mon := 1, day := 1 }

/-! ## Shape of the texts read by `cal_parse`

Vocabulary of the claims, not part of `calby.c`: the parts of a text read from
left to right as `[-] digits - digits - digits [run of space, tab, T] digits :
digits [: digits] [run of space, tab] sign d d d d`, followed by anything. -/

/-- An ASCII digit, `'0'` to `'9'`. -/
def is_digit (ch : Nat) : Prop := 48 ≤ ch ∧ ch ≤ 57

/-- The parts of a text of the shape above. -/
structure iso_parts where
  neg : Bool
  ys : List Nat
  ms : List Nat
  ds : List Nat
  ws : List Nat
  hs : List Nat
  ns : List Nat
  secs : Option (List Nat)
  bs : List Nat
  sg : Nat
  o3 : Nat
  o2 : Nat
  o1 : Nat
  o0 : Nat
  rest : List Nat

/-- The text `:SS` of the optional seconds. -/
def secs_text : Option (List Nat) → List Nat
  | none => []
  | some ss => 58 :: ss

/-- The value stored in `dt->sec` for the optional seconds: `0` without `:SS`. -/
def secs_value : Option (List Nat) → Int
  | none => 0
  | some ss => to_long (scan_digits ss 0).1

/-- The text made of the parts, in their order. -/
def iso_parts.text (p : iso_parts) : List Nat :=
  (if p.neg then [45] else []) ++ (p.ys ++ 45 :: (p.ms ++ 45 :: (p.ds ++ (p.ws ++ (p.hs ++
    58 :: (p.ns ++ (secs_text p.secs ++ (p.bs ++
      p.sg :: p.o3 :: p.o2 :: p.o1 :: p.o0 :: p.rest))))))))

/-- The parts are well formed: a leading `'-'` is the sign of the year (a text
that starts with `'-'` has `neg` set), the digit runs are made of digits, the
two runs of blanks of their characters, the sign is `'+'` or `'-'` and the
four offset positions hold digits.  No field has a bound on its magnitude. -/
def iso_parts.wf (p : iso_parts) : Prop :=
  (p.neg = false → p.ys ≠ []) ∧
  (∀ ch ∈ p.ys, is_digit ch) ∧ (∀ ch ∈ p.ms, is_digit ch) ∧ (∀ ch ∈ p.ds, is_digit ch) ∧
  (∀ ch ∈ p.ws, ch = 32 ∨ ch = 9 ∨ ch = 84) ∧
  (∀ ch ∈ p.hs, is_digit ch) ∧ (∀ ch ∈ p.ns, is_digit ch) ∧
  (∀ ss, p.secs = some ss → ∀ ch ∈ ss, is_digit ch) ∧
  (∀ ch ∈ p.bs, ch = 32 ∨ ch = 9) ∧
  (p.sg = 43 ∨ p.sg = 45) ∧
  is_digit p.o3 ∧ is_digit p.o2 ∧ is_digit p.o1 ∧ is_digit p.o0

/-! # Theorems

## TAI packing: byte arithmetic -/

/-- Masking with `255` is the remainder modulo `256`. -/
theorem and_255 (x : Nat) : x &&& 255 = x % 256 :=
  Nat.and_pow_two_sub_one_eq_mod x 8

/-- Shifting right by eight bits is division by `256`. -/
theorem shr_8 (x : Nat) : x >>> 8 = x / 256 := by
  rw [Nat.shiftRight_eq_div_pow]

/-- Shifting left by eight bits is multiplication by `256`. -/
theorem shl_8 (x : Nat) : x <<< 8 = x * 256 := by
  rw [Nat.shiftLeft_eq]

/-- The byte list of `cal_tai_pack` in terms of division and remainder. -/
theorem cal_tai_pack_eq (x : Nat) :
    cal_tai_pack x =
      [x / 256 ^ 7 % 256, x / 256 ^ 6 % 256, x / 256 ^ 5 % 256, x / 256 ^ 4 % 256,
       x / 256 ^ 3 % 256, x / 256 ^ 2 % 256, x / 256 ^ 1 % 256, x / 256 ^ 0 % 256] := by
  simp only [cal_tai_pack, to_char, and_255, shr_8]
  norm_num
  omega

/-- The value of `cal_tai_unpack` on eight bytes, as a positional sum. -/
theorem cal_tai_unpack_eq (b0 b1 b2 b3 b4 b5 b6 b7 : Nat)
    (h0 : b0 < 256) (h1 : b1 < 256) (h2 : b2 < 256) (h3 : b3 < 256)
    (h4 : b4 < 256) (h5 : b5 < 256) (h6 : b6 < 256) (h7 : b7 < 256) :
    cal_tai_unpack [b0, b1, b2, b3, b4, b5, b6, b7] =
      some (b0 * 256 ^ 7 + b1 * 256 ^ 6 + b2 * 256 ^ 5 + b3 * 256 ^ 4 +
            b4 * 256 ^ 3 + b5 * 256 ^ 2 + b6 * 256 ^ 1 + b7 * 256 ^ 0) := by
  simp only [cal_tai_unpack, to_char, u64, shl_8, Option.some.injEq]
  norm_num
  omega

/-! ## TAI packing: claims C1, C2 -/

/-- C1: for every 64-bit unsigned value `x`, `cal_tai_unpack` applied to the
eight bytes written by `cal_tai_pack x` yields exactly `x`. -/
theorem C1_unpack_pack (x : Nat) (hx : x < 2 ^ 64) :
    cal_tai_unpack (cal_tai_pack x) = some x := by
  rw [cal_tai_pack_eq x, cal_tai_unpack_eq] <;> first
    | exact Nat.mod_lt _ (by norm_num)
    | (norm_num at hx ⊢; omega)

/-- Witness of C1 at `x = 4611686014920671114`. -/
theorem C1_unpack_pack_witness :
    (4611686014920671114 : Nat) < 2 ^ 64 ∧
      cal_tai_unpack (cal_tai_pack 4611686014920671114) = some 4611686014920671114 :=
  ⟨by norm_num, C1_unpack_pack 4611686014920671114 (by norm_num)⟩

/-- C2: `cal_tai_pack` is the big-endian encoding, byte `i` of its output is
`(x / 256 ^ (7 - i)) mod 256` for every 64-bit `x` and every `i` in `0..7`; and
on eight bytes `b0..b7`, `cal_tai_unpack` returns the sum of
`b_i * 256 ^ (7 - i)`. -/
theorem C2_big_endian (x : Nat) (_hx : x < 2 ^ 64) (i : Nat) (hi : i < 8)
    (b0 b1 b2 b3 b4 b5 b6 b7 : Nat)
    (h0 : b0 < 256) (h1 : b1 < 256) (h2 : b2 < 256) (h3 : b3 < 256)
    (h4 : b4 < 256) (h5 : b5 < 256) (h6 : b6 < 256) (h7 : b7 < 256) :
    (cal_tai_pack x).length = 8 ∧
    (cal_tai_pack x)[i]? = some (x / 256 ^ (7 - i) % 256) ∧
    cal_tai_unpack [b0, b1, b2, b3, b4, b5, b6, b7] =
      some (b0 * 256 ^ 7 + b1 * 256 ^ 6 + b2 * 256 ^ 5 + b3 * 256 ^ 4 +
            b4 * 256 ^ 3 + b5 * 256 ^ 2 + b6 * 256 ^ 1 + b7 * 256 ^ 0) := by
  refine ⟨by simp [cal_tai_pack_eq], ?_, cal_tai_unpack_eq b0 b1 b2 b3 b4 b5 b6 b7
    h0 h1 h2 h3 h4 h5 h6 h7⟩
  rw [cal_tai_pack_eq]
  interval_cases i <;> rfl

/-- Witness of C2 at `x = 258`, `i = 6` and the bytes `0, 0, 0, 0, 0, 0, 1, 2`. -/
theorem C2_big_endian_witness :
    (cal_tai_pack 258).length = 8 ∧
    (cal_tai_pack 258)[6]? = some (258 / 256 ^ (7 - 6) % 256) ∧
    cal_tai_unpack [0, 0, 0, 0, 0, 0, 1, 2] =
      some (0 * 256 ^ 7 + 0 * 256 ^ 6 + 0 * 256 ^ 5 + 0 * 256 ^ 4 +
            0 * 256 ^ 3 + 0 * 256 ^ 2 + 1 * 256 ^ 1 + 2 * 256 ^ 0) :=
  C2_big_endian 258 (by norm_num) 6 (by norm_num) 0 0 0 0 0 0 1 2
    (by norm_num) (by norm_num) (by norm_num) (by norm_num)
    (by norm_num) (by norm_num) (by norm_num) (by norm_num)

/-! ## ISO text: scanning the text written by `cal_format` -/

/-- The byte `'0' + a` of a decimal digit `a` gives `c = a`. -/
theorem digit_of_digit (a : Nat) (ha : a ≤ 9) : digit_of (48 + a) = a := by
  unfold digit_of; omega

/-- The digit loop consumes a digit. -/
theorem scan_digits_digit (a : Nat) (ha : a ≤ 9) (t : List Nat) (z : Nat) :
    scan_digits ((48 + a) :: t) z = scan_digits t (u64 (z * 10 + a)) := by
  rw [scan_digits, digit_of_digit a ha, if_pos ha]

/-- The digit loop stops on a byte that is not a digit. -/
theorem scan_digits_stop (ch : Nat) (h : 9 < digit_of ch) (t : List Nat) (z : Nat) :
    scan_digits (ch :: t) z = (z, ch :: t) := by
  rw [scan_digits, if_neg (by omega)]

/-- The digit loop stops on `'-'`. -/
theorem scan_digits_minus (t : List Nat) (z : Nat) :
    scan_digits (45 :: t) z = (z, 45 :: t) := scan_digits_stop 45 (by decide) t z

/-- The digit loop stops on `':'`. -/
theorem scan_digits_colon (t : List Nat) (z : Nat) :
    scan_digits (58 :: t) z = (z, 58 :: t) := scan_digits_stop 58 (by decide) t z

/-- The digit loop stops on a space. -/
theorem scan_digits_space (t : List Nat) (z : Nat) :
    scan_digits (32 :: t) z = (z, 32 :: t) := scan_digits_stop 32 (by decide) t z

/-- An offset position holding a digit is accepted. -/
theorem offset_digit_digit (a : Nat) (ha : a ≤ 9) (t : List Nat) :
    offset_digit ((48 + a) :: t) = some (a, t) := by
  rw [offset_digit, digit_of_digit a ha, if_neg (by omega)]

/-- A text starting with a digit has no year sign. -/
theorem year_sign_digit (a : Nat) (t : List Nat) :
    year_sign ((48 + a) :: t) = (1, (48 + a) :: t) := by
  rw [year_sign, if_neg (by omega)]

/-- A separator that is present is consumed. -/
theorem expect_char_same (c : Nat) (t : List Nat) : expect_char c (c :: t) = some t := by
  simp [expect_char]

/-- One space between the date and the hour is skipped. -/
theorem skip_date_sep_space_digit (a : Nat) (ha : a ≤ 9) (t : List Nat) :
    skip_date_sep (32 :: (48 + a) :: t) = (48 + a) :: t := by
  rw [skip_date_sep, if_pos (by simp), skip_date_sep, if_neg (by omega)]

/-- The sign `1` as an `unsigned long`. -/
theorem to_ulong_one : to_ulong 1 = 1 := by decide

/-- The sign `-1` as an `unsigned long`, `2 ^ 64 - 1`. -/
theorem to_ulong_neg_one : to_ulong (-1) = 18446744073709551615 := by decide

/-- One space before the offset sign is skipped. -/
theorem skip_blank_space (ch : Nat) (h1 : ch ≠ 32) (h2 : ch ≠ 9) (t : List Nat) :
    skip_blank (32 :: ch :: t) = ch :: t := by
  simp [skip_blank, h1, h2]

/-- After `':'` the seconds are scanned. -/
theorem opt_seconds_colon (t : List Nat) :
    opt_seconds (58 :: t) = (to_long (scan_digits t 0).1, (scan_digits t 0).2) := by
  simp [opt_seconds]

/-- No wrap-around below `2 ^ 64`. -/
theorem u64_small (n : Nat) (h : n < 18446744073709551616) : u64 n = n := by
  unfold u64; norm_num; omega

/-- An `unsigned long` below `2 ^ 63` keeps its value as a `long`. -/
theorem to_long_small (n : Nat) (h : n < 9223372036854775808) : to_long n = (n : Int) := by
  unfold to_long; norm_num; omega

/-- The product `z * sign` for `sign = -1`, read as a `long`, is `-z`. -/
theorem to_long_neg (z : Nat) (h : z < 9223372036854775808) :
    to_long (u64 (z * 18446744073709551615)) = -(z : Int) := by
  rcases Nat.eq_zero_or_pos z with rfl | hz
  · decide
  · have e : z * 18446744073709551615 = (2 ^ 64 - z) + (z - 1) * 2 ^ 64 := by
      norm_num; omega
    unfold u64
    rw [e, Nat.add_mul_mod_self_right, Nat.mod_eq_of_lt (by norm_num; omega)]
    unfold to_long
    norm_num
    omega

/-- The record `cal_parse` reads from a text of the fixed shape written by
`cal_format`, in terms of its decimal digits. -/
theorem parse_render (y3 y2 y1 y0 m1 m0 d1 d0 h1 h0 n1 n0 s1 s0 o3 o2 o1 o0 : Nat)
    (hy3 : y3 ≤ 9) (hy2 : y2 ≤ 9) (hy1 : y1 ≤ 9) (hy0 : y0 ≤ 9)
    (hm1 : m1 ≤ 9) (hm0 : m0 ≤ 9) (hd1 : d1 ≤ 9) (hd0 : d0 ≤ 9)
    (hh1 : h1 ≤ 9) (hh0 : h0 ≤ 9) (hn1 : n1 ≤ 9) (hn0 : n0 ≤ 9)
    (hs1 : s1 ≤ 9) (hs0 : s0 ≤ 9)
    (ho3 : o3 ≤ 9) (ho2 : o2 ≤ 9) (ho1 : o1 ≤ 9) (ho0 : o0 ≤ 9) (neg : Bool) :
    cal_parse [48 + y3, 48 + y2, 48 + y1, 48 + y0, 45, 48 + m1, 48 + m0, 45,
               48 + d1, 48 + d0, 32, 48 + h1, 48 + h0, 58, 48 + n1, 48 + n0, 58,
               48 + s1, 48 + s0, 32, (if neg then 45 else 43),
               48 + o3, 48 + o2, 48 + o1, 48 + o0, 0] =
      some { year := ((y3 * 1000 + y2 * 100 + y1 * 10 + y0 : Nat) : Int),
             mon := ((m1 * 10 + m0 : Nat) : Int),
             day := ((d1 * 10 + d0 : Nat) : Int),
             hour := ((h1 * 10 + h0 : Nat) : Int),
             min := ((n1 * 10 + n0 : Nat) : Int),
             sec := ((s1 * 10 + s0 : Nat) : Int),
             off := (if neg then -1 else 1) *
               (((o3 * 10 + o2) * 60 + o1 * 10 + o0 : Nat) : Int) } := by
  cases neg
  · simp only [cal_parse, year_sign_digit, opt_seconds_colon, scan_digits_digit,
      scan_digits_minus, scan_digits_colon, scan_digits_space, offset_digit_digit,
      expect_char_same, skip_date_sep_space_digit, skip_blank_space, offset_sign,
      hy3, hy2, hy1, hy0, hm1, hm0, hd1, hd0, hh1, hh0, hn1, hn0, hs1, hs0, ho3, ho2, ho1, ho0,
      Option.some_bind, Option.bind_eq_bind, Option.pure_def, Bool.false_eq_true, if_false,
      if_true, ne_eq, not_false_eq_true, reduceCtorEq, Nat.reduceEqDiff, to_ulong_one,
      Option.some.injEq, cal_datetime_t.mk.injEq]
    simp (disch := omega) only [u64_small, to_long_small]
    refine ⟨?_, ?_, ?_, ?_, ?_, ?_, ?_⟩ <;> omega
  · simp only [cal_parse, year_sign_digit, opt_seconds_colon, scan_digits_digit,
      scan_digits_minus, scan_digits_colon, scan_digits_space, offset_digit_digit,
      expect_char_same, skip_date_sep_space_digit, skip_blank_space, offset_sign,
      hy3, hy2, hy1, hy0, hm1, hm0, hd1, hd0, hh1, hh0, hn1, hn0, hs1, hs0, ho3, ho2, ho1, ho0,
      Option.some_bind, Option.bind_eq_bind, Option.pure_def, Bool.false_eq_true, if_false,
      if_true, ne_eq, not_false_eq_true, reduceCtorEq, Nat.reduceEqDiff, to_ulong_one,
      to_ulong_neg_one, Option.some.injEq, cal_datetime_t.mk.injEq]
    simp (disch := omega) only [u64_small, to_long_small, to_long_neg]
    refine ⟨?_, ?_, ?_, ?_, ?_, ?_, ?_⟩ <;> omega

/-- Truncating division of a non-negative `long` by `10`. -/
theorem tdiv_natCast_10 (n : Nat) : Int.tdiv (n : Int) 10 = ((n / 10 : Nat) : Int) := by
  rw [Int.tdiv_eq_ediv (by omega) (by omega)]; norm_cast

/-- Truncating division of a non-negative `long` by `60`. -/
theorem tdiv_natCast_60 (n : Nat) : Int.tdiv (n : Int) 60 = ((n / 60 : Nat) : Int) := by
  rw [Int.tdiv_eq_ediv (by omega) (by omega)]; norm_cast

/-- Truncating division of a non-negative `long` by `100`. -/
theorem tdiv_natCast_100 (n : Nat) : Int.tdiv (n : Int) 100 = ((n / 100 : Nat) : Int) := by
  rw [Int.tdiv_eq_ediv (by omega) (by omega)]; norm_cast

/-- Truncating division of a non-negative `long` by `1000`. -/
theorem tdiv_natCast_1000 (n : Nat) : Int.tdiv (n : Int) 1000 = ((n / 1000 : Nat) : Int) := by
  rw [Int.tdiv_eq_ediv (by omega) (by omega)]; norm_cast

/-- Truncating remainder of a non-negative `long` by `10`. -/
theorem tmod_natCast_10 (n : Nat) : Int.tmod (n : Int) 10 = ((n % 10 : Nat) : Int) := by
  rw [Int.tmod_eq_emod (by omega) (by omega)]; norm_cast

/-- The byte stored for a decimal digit. -/
theorem char_of_long_digit (a : Nat) (ha : a ≤ 9) : char_of_long ((a : Int) + 48) = 48 + a := by
  unfold char_of_long; omega

/-- The text written by `cal_format` for fields within their two-digit
ranges, in terms of decimal digits. -/
theorem format_nonneg (y mo d h mi s o : Nat) (hy : y ≤ 9999) (hmo : mo ≤ 99) (hd : d ≤ 99)
    (hh : h ≤ 99) (hmi : mi ≤ 99) (hs : s ≤ 99) (ho : o ≤ 5999) (neg : Bool) :
    cal_format { year := y, mon := mo, day := d, hour := h, min := mi, sec := s,
                 off := if neg then -(o : Int) else o } =
      [48 + y / 1000, 48 + y / 100 % 10, 48 + y / 10 % 10, 48 + y % 10, 45,
       48 + mo / 10, 48 + mo % 10, 45, 48 + d / 10, 48 + d % 10, 32,
       48 + h / 10, 48 + h % 10, 58, 48 + mi / 10, 48 + mi % 10, 58,
       48 + s / 10, 48 + s % 10, 32, (if neg ∧ 0 < o then 45 else 43),
       48 + o / 60 / 10, 48 + o / 60 % 10, 48 + o % 60 / 10, 48 + o % 60 % 10, 0] := by
  have hm : ((o : Int) - ((o / 60 : Nat) : Int) * 60) = ((o % 60 : Nat) : Int) := by omega
  cases neg
  · have ho1 : (if (o : Int) < 0 then (-1) * (o : Int) else (o : Int)) = (o : Int) :=
      if_neg (by omega)
    have ho2 : (if (o : Int) < 0 then 45 else 43) = 43 := if_neg (by omega)
    simp only [cal_format, Bool.false_eq_true, if_false, false_and, ho1, ho2,
      tdiv_natCast_10, tdiv_natCast_60, tdiv_natCast_100, tdiv_natCast_1000,
      tmod_natCast_10, hm]
    simp (disch := omega) only [char_of_long_digit]
  · have ho1 : (if -(o : Int) < 0 then (-1) * -(o : Int) else -(o : Int)) = (o : Int) := by
      split <;> omega
    have ho2 : (if -(o : Int) < 0 then 45 else 43) = (if 0 < o then 45 else 43) := by
      split <;> split <;> omega
    simp only [cal_format, if_true, true_and, ho1, ho2,
      tdiv_natCast_10, tdiv_natCast_60, tdiv_natCast_100, tdiv_natCast_1000,
      tmod_natCast_10, hm]
    simp (disch := omega) only [char_of_long_digit]

/-! ## ISO text: claim C3 -/

/-- C3: for every record with year in `[0, 9999]`, month, day, hour, minute and
second in `[0, 99]` and offset in `[-5999, 5999]`, `cal_parse` applied to the
text written by `cal_format` succeeds and gives back the record, equal in all
seven fields. -/
theorem C3_parse_format (t : cal_datetime_t)
    (hyear : 0 ≤ t.year ∧ t.year ≤ 9999) (hmon : 0 ≤ t.mon ∧ t.mon ≤ 99)
    (hday : 0 ≤ t.day ∧ t.day ≤ 99) (hhour : 0 ≤ t.hour ∧ t.hour ≤ 99)
    (hmin : 0 ≤ t.min ∧ t.min ≤ 99) (hsec : 0 ≤ t.sec ∧ t.sec ≤ 99)
    (hoff : -5999 ≤ t.off ∧ t.off ≤ 5999) :
    cal_parse (cal_format t) = some t := by
  obtain ⟨year, mon, day, hour, min, sec, off⟩ := t
  simp only at hyear hmon hday hhour hmin hsec hoff
  obtain ⟨y, rfl⟩ := Int.eq_ofNat_of_zero_le hyear.1
  obtain ⟨mo, rfl⟩ := Int.eq_ofNat_of_zero_le hmon.1
  obtain ⟨d, rfl⟩ := Int.eq_ofNat_of_zero_le hday.1
  obtain ⟨h, rfl⟩ := Int.eq_ofNat_of_zero_le hhour.1
  obtain ⟨mi, rfl⟩ := Int.eq_ofNat_of_zero_le hmin.1
  obtain ⟨s, rfl⟩ := Int.eq_ofNat_of_zero_le hsec.1
  obtain ⟨o, neg, rfl, hneg⟩ : ∃ (o : Nat) (neg : Bool),
      off = (if neg then -(o : Int) else o) ∧ (neg = true → 0 < o) := by
    rcases Int.lt_or_le off 0 with hlt | hle
    · exact ⟨(-off).toNat, true, by simp; omega, fun _ => by omega⟩
    · exact ⟨off.toNat, false, by simp; omega, fun h => by simp at h⟩
  have ho : o ≤ 5999 := by cases neg <;> simp at hoff <;> omega
  rw [format_nonneg y mo d h mi s o (by omega) (by omega) (by omega) (by omega) (by omega)
    (by omega) ho neg]
  have hsign : (if neg = true ∧ 0 < o then 45 else 43) = (if neg = true then 45 else 43) := by
    cases neg
    · simp
    · simp [hneg rfl]
  rw [hsign, parse_render _ _ _ _ _ _ _ _ _ _ _ _ _ _ _ _ _ _ (by omega) (by omega) (by omega)
    (by omega) (by omega) (by omega) (by omega) (by omega) (by omega) (by omega) (by omega)
    (by omega) (by omega) (by omega) (by omega) (by omega) (by omega) (by omega) neg]
  simp only [Option.some.injEq, cal_datetime_t.mk.injEq]
  refine ⟨by omega, by omega, by omega, by omega, by omega, by omega, ?_⟩
  cases neg
  · simp only [Bool.false_eq_true, if_false]; omega
  · simp only [if_true]; omega

/-- Witness of C3 at `2011-03-19 10:00:00 -0130`. -/
theorem C3_parse_format_witness :
    cal_parse (cal_format ⟨2011, 3, 19, 10, 0, 0, -90⟩) = some ⟨2011, 3, 19, 10, 0, 0, -90⟩ :=
  C3_parse_format ⟨2011, 3, 19, 10, 0, 0, -90⟩ (by decide) (by decide) (by decide) (by decide)
    (by decide) (by decide) (by decide)

/-! ## Modified Julian Date: truncating division against floor division -/

/-- Truncating division by a positive divisor in terms of floor division. -/
theorem tdiv_eq_ite (a b : Int) (hb : 0 < b) :
    Int.tdiv a b = if 0 ≤ a then a / b else -((-a) / b) := by
  split
  · rw [Int.tdiv_eq_ediv] <;> omega
  · have h : a = -(-a) := by omega
    rw [h, Int.neg_tdiv, Int.tdiv_eq_ediv (by omega) (by omega)]
    simp

/-- Truncating remainder in terms of truncating division. -/
theorem tmod_eq_sub (a b : Int) : Int.tmod a b = a - b * Int.tdiv a b := by
  have := Int.tdiv_add_tmod a b
  omega

/-- On a non-negative `long`, `y & 3` is the remainder modulo `4`. -/
theorem land_3 (y : Int) (hy : 0 ≤ y) : Int.land y 3 = y % 4 := by
  obtain ⟨n, rfl⟩ := Int.eq_ofNat_of_zero_le hy
  show ((n &&& 3 : Nat) : Int) = (n : Int) % 4
  rw [show (3 : Nat) = 2 ^ 2 - 1 from rfl, Nat.and_pow_two_sub_one_eq_mod]
  norm_cast

/-- The shift `y >> 2` is floor division by `4`. -/
theorem shr_2 (y : Int) : Int.shiftRight y 2 = y / 4 := by
  have := Int.shiftRight_eq_div_pow y 2
  simpa using this

/-- The table `_montab` in closed form (the source notes `(306 * m + 5) / 10`). -/
theorem table_montab (m : Int) (h0 : 0 ≤ m) (h1 : m < 12) :
    table_at _montab m = some ((306 * m + 5) / 10) := by
  interval_cases m <;> rfl

/-- The table `_times365` in closed form. -/
theorem table_times365 (i : Int) (h0 : 0 ≤ i) (h1 : i < 4) :
    table_at _times365 i = some (365 * i) := by
  interval_cases i <;> rfl

/-- The table `_times36524` in closed form. -/
theorem table_times36524 (i : Int) (h0 : 0 ≤ i) (h1 : i < 4) :
    table_at _times36524 i = some (36524 * i) := by
  interval_cases i <;> rfl

/-- The month table of the reference in closed form. -/
theorem montab_getD (M : Int) (h0 : 0 ≤ M) (h1 : M < 12) :
    ([0, 31, 61, 92, 122, 153, 184, 214, 245, 275, 306, 337].getD M.toNat 0 : Int) =
      (306 * M + 5) / 10 := by
  interval_cases M <;> rfl

/-- Quotient and remainder of C's division by `400`. -/
theorem tdiv_tmod_400 (a : Int) :
    a = 400 * Int.tdiv a 400 + Int.tmod a 400 ∧ -400 < Int.tmod a 400 ∧
      Int.tmod a 400 < 400 := by
  have hm := Int.tmod_def a 400
  have hd := tdiv_eq_ite a 400 (by norm_num)
  split at hd <;> omega

/-- Days of `Y = 400 Q + r` years: the nested 400, 100, 4 and 1 year cycles
against the floor-division formula. -/
theorem cycle_formula (Q r Y : Int) (h0 : 0 ≤ r) (h1 : r < 400) (hY : Y = 400 * Q + r) :
    365 * Y + Y / 4 - Y / 100 + Y / 400 =
      146097 * Q + 365 * (r % 4) + 1461 * (r / 4 % 25) + 36524 * (r / 4 / 25 % 4) := by
  subst hY
  omega

/-- The day count of `cal_mjd` is the floor-division reference, for every year
and day and a month in `1..12`; in particular every table read is in range. -/
theorem cal_mjd_days_eq (t : cal_datetime_t) (h1 : 1 ≤ t.mon) (h12 : t.mon ≤ 12) :
    cal_mjd_days t = some (mjd_reference t.year t.mon t.day) := by
  unfold cal_mjd_days
  lift_lets
  extract_lets d m y d1 y1 y2 m2 y3 m3 y4 m4 y5 y6 y7 y8
  have ed : d = t.day - 678882 := rfl
  have em : m = t.mon - 1 := rfl
  have ey : y = t.year := rfl
  have ed1 : d1 = d + 146097 * Int.tdiv y 400 := rfl
  have ey1 : y1 = Int.tmod y 400 := rfl
  have ey2 : y2 = if m ≥ 2 then y1 else y1 - 1 := rfl
  have em2 : m2 = if m ≥ 2 then m - 2 else m + 10 := rfl
  have ey3 : y3 = y2 + Int.tdiv m2 12 := rfl
  have em3 : m3 = Int.tmod m2 12 := rfl
  have ey4 : y4 = if m3 < 0 then y3 - 1 else y3 := rfl
  have em4 : m4 = if m3 < 0 then m3 + 12 else m3 := rfl
  have ey5 : y5 = Int.tmod y4 400 := rfl
  have ey6 : y6 = if y5 < 0 then y5 + 400 else y5 := rfl
  have ey7 : y7 = y6 / 4 := shr_2 y6
  have ey8 : y8 = Int.tdiv y7 25 := rfl
  clear_value y8 y7 y6 y5 m4 y4 m3 y3 m2 y2 y1 d1 y m d
  obtain ⟨f1, f1a, f1b⟩ := tdiv_tmod_400 y
  obtain ⟨f3, f3a, f3b⟩ := tdiv_tmod_400 y4
  have hm2 : 0 ≤ m2 ∧ m2 < 12 := by rw [em2]; split_ifs <;> omega
  rw [Int.tmod_eq_emod hm2.1 (by norm_num)] at em3
  rw [Int.tdiv_eq_ediv hm2.1 (by norm_num)] at ey3
  have hm3 : m3 = m2 := by omega
  have hy3 : y3 = y2 := by omega
  rw [if_neg (by omega), hm3] at em4
  rw [if_neg (by omega), hy3] at ey4
  have hy6 : 0 ≤ y6 ∧ y6 < 400 := by rw [ey6]; split_ifs <;> omega
  rw [Int.tdiv_eq_ediv (by omega) (by norm_num)] at ey8
  have hmod : Int.tmod y7 25 = y7 % 25 := Int.tmod_eq_emod (by omega) (by norm_num)
  rw [table_montab m4 (by omega) (by omega), land_3 y6 hy6.1, land_3 y8 (by omega),
    table_times365 _ (by omega) (by omega), table_times36524 _ (by omega) (by omega)]
  simp only [Option.bind_eq_bind, Option.some_bind, Option.pure_def, Option.some.injEq,
    mjd_reference]
  rw [montab_getD _ (by split_ifs <;> omega) (by split_ifs <;> omega), hmod]
  have key := cycle_formula (Int.tdiv y 400 + Int.tdiv y4 400 - (if y5 < 0 then 1 else 0)) y6
    (if t.mon ≥ 3 then t.year else t.year - 1) hy6.1 hy6.2
    (by rw [ey6]; split_ifs at * <;> omega)
  rw [key, ey8, ey7]
  have hM : m4 = (if t.mon ≥ 3 then t.mon - 3 else t.mon + 9) := by
    rw [em4, em2]; split_ifs <;> omega
  rw [hM, ed1, ed]
  split_ifs <;> omega

/-- The value of `cal_mjd` for a month in `1..12`: the reference day count
plus the fraction of the day. -/
theorem cal_mjd_eq (t : cal_datetime_t) (h1 : 1 ≤ t.mon) (h12 : t.mon ≤ 12) :
    cal_mjd t =
      some ((mjd_reference t.year t.mon t.day : ℚ) + (cal_mjd_secs t : ℚ) / 86400) := by
  simp only [cal_mjd, cal_mjd_days_eq t h1 h12, Option.bind_eq_bind, Option.some_bind,
    Option.pure_def]

/-! ## Leap seconds: the scans on an ascending table -/

/-- A table is loaded when it holds at least one entry: `cal_leapsecs_init`
then returns its count and leaves it alone. -/
theorem cal_leapsecs_init_loaded (file : Option (Option (List Nat))) (st : cal_leapsecs_s)
    (h : st.list ≠ []) : cal_leapsecs_init file st = ((st.count : Int), st) := by
  have : st.count ≠ 0 := by
    simpa [cal_leapsecs_s.count] using h
  simp [cal_leapsecs_init, this]

/-- A count is never the failure value `-1`. -/
theorem count_ne_neg_one (st : cal_leapsecs_s) : ((st.count : Nat) : Int) ≠ -1 := by omega

/-- On an ascending table the scan of `sub` / `get` adds to `r` the number of
entries less than or equal to `tai`. -/
theorem scan_le_sorted (tai : Nat) (l : List Nat) (hs : l.Sorted (· ≤ ·)) (r : Int) :
    scan_le tai l r = r + (l.countP (· ≤ tai) : Nat) := by
  induction l generalizing r with
  | nil => simp [scan_le]
  | cons e rest ih =>
    have hrest := (List.sorted_cons.1 hs).2
    have hall := (List.sorted_cons.1 hs).1
    rw [scan_le]
    by_cases h : tai < e
    · have hnone : rest.countP (· ≤ tai) = 0 := by
        rw [List.countP_eq_zero]
        intro a ha
        have := hall a ha
        simp only [decide_eq_true_eq]
        omega
      rw [if_pos h, List.countP_cons_of_neg _ _ (by simpa using h), hnone]
      simp
    · rw [if_neg h, ih hrest, List.countP_cons_of_pos _ _ (by simpa using h)]
      push_cast
      omega

/-- On an ascending table the scan of `cal_isleapsec` finds `tai` exactly
when it is an entry. -/
theorem scan_isleap_sorted (tai : Nat) (l : List Nat) (hs : l.Sorted (· ≤ ·)) :
    scan_isleap tai l = if tai ∈ l then 1 else 0 := by
  induction l with
  | nil => simp [scan_isleap]
  | cons e rest ih =>
    have hrest := (List.sorted_cons.1 hs).2
    have hall := (List.sorted_cons.1 hs).1
    rw [scan_isleap]
    by_cases h : tai < e
    · have hnot : tai ∉ e :: rest := by
        intro hmem
        rcases List.mem_cons.1 hmem with h1 | h1
        · omega
        · have := hall tai h1
          omega
      rw [if_pos h, if_neg hnot]
    · rw [if_neg h]
      by_cases h2 : tai = e
      · rw [if_pos h2, if_pos (by simp [h2])]
      · rw [if_neg h2, ih hrest]
        simp [h2]

/-- On a strictly ascending table the scan of `cal_leapsecs_add` leaves the
cell `*tai` alone and adds to `r` the number of entries less than `tai`. -/
theorem scan_add_sorted (tai : Nat) (l : List Nat) (hs : l.Sorted (· < ·)) (r : Int) :
    scan_add l (tai, r) = (tai, r + (l.countP (· < tai) : Nat)) := by
  induction l generalizing r with
  | nil => simp [scan_add]
  | cons e rest ih =>
    have hrest := (List.sorted_cons.1 hs).2
    have hall := (List.sorted_cons.1 hs).1
    have hnone : tai ≤ e → rest.countP (· < tai) = 0 := by
      intro hle
      rw [List.countP_eq_zero]
      intro a ha
      have := hall a ha
      simp only [decide_eq_true_eq]
      omega
    rw [scan_add]
    by_cases h : tai < e
    · rw [if_pos h, List.countP_cons_of_neg _ _ (by simp; omega), hnone (by omega)]
      simp
    · rw [if_neg h]
      by_cases h2 : tai = e
      · rw [if_pos h2, ih hrest, List.countP_cons_of_neg _ _ (by simp; omega),
          hnone (by omega)]
        simp
      · rw [if_neg h2, ih hrest, List.countP_cons_of_pos _ _ (by simp; omega)]
        push_cast
        rw [add_assoc, add_comm 1]

/-! ## Leap seconds: claims C7, C8, C9, C10

A table is loaded when `cal_leapsecs_init` does not return `-1`; the table the
scans read is the state it leaves. -/

/-- C7, as stated, fails on the loaded, strictly ascending table
`[100, 200, 300]` at `tai = 200`: `cal_leapsecs_get` returns `2`, while one
entry only is strictly less than `200`. -/
theorem C7_get_counterexample :
    cal_leapsecs_init none ⟨[100, 200, 300]⟩ = (3, ⟨[100, 200, 300]⟩) ∧
    ([100, 200, 300] : List Nat).Sorted (· < ·) ∧
    (cal_leapsecs_get none ⟨[100, 200, 300]⟩ 200).1 = 2 ∧
    (([100, 200, 300] : List Nat).countP (· < 200) : Int) = 1 ∧
    (cal_leapsecs_get none ⟨[100, 200, 300]⟩ 200).1 ≠
      (([100, 200, 300] : List Nat).countP (· < 200) : Int) := by
  decide

/-- C7, amended: for every loaded strictly ascending table and every `tai`,
`cal_leapsecs_get` returns the number of table entries less than or equal to
`tai`, and leaves the table as loaded. -/
theorem C7_get_counts_le (file : Option (Option (List Nat))) (st st1 : cal_leapsecs_s)
    (n : Int) (tai : Nat) (hinit : cal_leapsecs_init file st = (n, st1)) (hn : n ≠ -1)
    (hs : st1.list.Sorted (· < ·)) :
    cal_leapsecs_get file st tai = (((st1.list.countP (· ≤ tai) : Nat) : Int), st1) := by
  simp only [cal_leapsecs_get, hinit, if_neg hn,
    scan_le_sorted tai st1.list (hs.imp (fun h => Nat.le_of_lt h)) 0, zero_add]

/-- Witness of the amended C7 on the table `[100, 200, 300]` at `tai = 250`:
the result is `2`. -/
theorem C7_get_counts_le_witness :
    cal_leapsecs_get none ⟨[100, 200, 300]⟩ 250 = (2, ⟨[100, 200, 300]⟩) :=
  C7_get_counts_le none ⟨[100, 200, 300]⟩ ⟨[100, 200, 300]⟩ 3 250 (by decide) (by decide)
    (by decide)

/-- C8: for every loaded ascending table and every `tai`, `cal_isleapsec`
returns `1` if `tai` equals some table entry and `0` otherwise. -/
theorem C8_isleapsec_iff_mem (file : Option (Option (List Nat))) (st st1 : cal_leapsecs_s)
    (n : Int) (tai : Nat) (hinit : cal_leapsecs_init file st = (n, st1)) (hn : n ≠ -1)
    (hs : st1.list.Sorted (· ≤ ·)) :
    ((cal_isleapsec file st tai).1 = 1 ↔ tai ∈ st1.list) ∧
    (cal_isleapsec file st tai).1 = (if tai ∈ st1.list then 1 else 0) := by
  have h : (cal_isleapsec file st tai).1 = (if tai ∈ st1.list then 1 else 0) := by
    simp only [cal_isleapsec, hinit, if_neg hn, scan_isleap_sorted tai st1.list hs]
  refine ⟨?_, h⟩
  rw [h]
  split <;> simp_all

/-- Witness of C8 on the table `[100, 200, 300]`: `200` is a leap second. -/
theorem C8_isleapsec_iff_mem_witness :
    ((cal_isleapsec none ⟨[100, 200, 300]⟩ 200).1 = 1 ↔ 200 ∈ [100, 200, 300]) ∧
    (cal_isleapsec none ⟨[100, 200, 300]⟩ 200).1 =
      (if 200 ∈ [100, 200, 300] then 1 else 0) :=
  C8_isleapsec_iff_mem none ⟨[100, 200, 300]⟩ ⟨[100, 200, 300]⟩ 3 200 (by decide) (by decide)
    (by decide)

/-- C9, as stated, fails on the loaded, strictly ascending table
`[100, 200, 300]` at `tai = 200`: `cal_leapsecs_sub` returns `2` and stores
`198`, while one entry only is strictly less than `200`. -/
theorem C9_sub_counterexample :
    cal_leapsecs_init none ⟨[100, 200, 300]⟩ = (3, ⟨[100, 200, 300]⟩) ∧
    ([100, 200, 300] : List Nat).Sorted (· < ·) ∧
    cal_leapsecs_sub none ⟨[100, 200, 300]⟩ 200 = (2, 198, ⟨[100, 200, 300]⟩) ∧
    (([100, 200, 300] : List Nat).countP (· < 200) : Int) = 1 ∧
    (cal_leapsecs_sub none ⟨[100, 200, 300]⟩ 200).1 ≠
      (([100, 200, 300] : List Nat).countP (· < 200) : Int) := by
  decide

/-- C9, amended: for every loaded strictly ascending table and every `tai`,
`cal_leapsecs_sub` returns `r`, the number of table entries less than or equal
to `tai` (the scan stops at the first entry greater than `tai`), and the
stored instant afterwards is `tai - r` modulo `2 ^ 64`. -/
theorem C9_sub_counts_le (file : Option (Option (List Nat))) (st st1 : cal_leapsecs_s)
    (n : Int) (tai : Nat) (hinit : cal_leapsecs_init file st = (n, st1)) (hn : n ≠ -1)
    (hs : st1.list.Sorted (· < ·)) :
    (cal_leapsecs_sub file st tai).1 = ((st1.list.countP (· ≤ tai) : Nat) : Int) ∧
    ((cal_leapsecs_sub file st tai).2.1 : Int) =
      ((tai : Int) - ((st1.list.countP (· ≤ tai) : Nat) : Int)) % 2 ^ 64 ∧
    (cal_leapsecs_sub file st tai).2.2 = st1 := by
  simp only [cal_leapsecs_sub, hinit, if_neg hn,
    scan_le_sorted tai st1.list (hs.imp (fun h => Nat.le_of_lt h)) 0, zero_add, to_ulong,
    true_and, and_true]
  exact Int.toNat_of_nonneg (Int.emod_nonneg _ (by norm_num))

/-- Witness of the amended C9 on the table `[100, 200, 300]` at `tai = 250`. -/
theorem C9_sub_counts_le_witness :
    (cal_leapsecs_sub none ⟨[100, 200, 300]⟩ 250).1 =
      ((([100, 200, 300] : List Nat).countP (· ≤ 250) : Nat) : Int) ∧
    ((cal_leapsecs_sub none ⟨[100, 200, 300]⟩ 250).2.1 : Int) =
      ((250 : Int) - ((([100, 200, 300] : List Nat).countP (· ≤ 250) : Nat) : Int)) % 2 ^ 64 ∧
    (cal_leapsecs_sub none ⟨[100, 200, 300]⟩ 250).2.2 = ⟨[100, 200, 300]⟩ :=
  C9_sub_counts_le none ⟨[100, 200, 300]⟩ ⟨[100, 200, 300]⟩ 3 250 (by decide) (by decide)
    (by decide)

/-- C10: for every loaded strictly ascending table and every `tai`,
`cal_leapsecs_add` returns `r`, the number of table entries strictly less than
`tai`; the scan leaves the cell `*tai` at its original value, so every entry is
compared with the original `tai`; and the stored instant afterwards is
`tai + r` modulo `2 ^ 64`. -/
theorem C10_add_counts_lt (file : Option (Option (List Nat))) (st st1 : cal_leapsecs_s)
    (n : Int) (tai : Nat) (hinit : cal_leapsecs_init file st = (n, st1)) (hn : n ≠ -1)
    (hs : st1.list.Sorted (· < ·)) :
    (cal_leapsecs_add file st tai).1 = ((st1.list.countP (· < tai) : Nat) : Int) ∧
    (scan_add st1.list (tai, 0)).1 = tai ∧
    ((cal_leapsecs_add file st tai).2.1 : Int) =
      ((tai : Int) + ((st1.list.countP (· < tai) : Nat) : Int)) % 2 ^ 64 ∧
    (cal_leapsecs_add file st tai).2.2 = st1 := by
  simp only [cal_leapsecs_add, hinit, if_neg hn, scan_add_sorted tai st1.list hs 0, zero_add,
    to_ulong, true_and, and_true]
  exact Int.toNat_of_nonneg (Int.emod_nonneg _ (by norm_num))

/-- Witness of C10 on the table `[100, 200, 300]` at `tai = 200`, an entry of
the table: the result is `1` and the stored instant `201`. -/
theorem C10_add_counts_lt_witness :
    (cal_leapsecs_add none ⟨[100, 200, 300]⟩ 200).1 =
      ((([100, 200, 300] : List Nat).countP (· < 200) : Nat) : Int) ∧
    (scan_add [100, 200, 300] (200, 0)).1 = 200 ∧
    ((cal_leapsecs_add none ⟨[100, 200, 300]⟩ 200).2.1 : Int) =
      ((200 : Int) + ((([100, 200, 300] : List Nat).countP (· < 200) : Nat) : Int)) % 2 ^ 64 ∧
    (cal_leapsecs_add none ⟨[100, 200, 300]⟩ 200).2.2 = ⟨[100, 200, 300]⟩ :=
  C10_add_counts_lt none ⟨[100, 200, 300]⟩ ⟨[100, 200, 300]⟩ 3 200 (by decide) (by decide)
    (by decide)

/-! ## TAI stamp: the cast of the day -/

/-- The cast `(long) x` is the floor of a non-negative `x` and the ceiling of
a negative one. -/
theorem long_of_double_eq (q : ℚ) :
    long_of_double q = if 0 ≤ q then ⌊q⌋ else ⌈q⌉ := by
  unfold long_of_double
  have hden : (0 : Int) < (q.den : Int) := by exact_mod_cast q.den_pos
  rw [tdiv_eq_ite _ _ hden]
  by_cases h : 0 ≤ q
  · rw [if_pos (Rat.num_nonneg.2 h), if_pos h, Rat.floor_def]
  · rw [if_neg (by rwa [Rat.num_nonneg]), if_neg h]
    have : ⌈q⌉ = -⌊-q⌋ := by rw [Int.floor_neg]; simp
    rw [this, Rat.floor_def]
    simp

/-- The cast `(long)` of a day count plus a fraction of a day. -/
theorem long_of_double_day (D s : Int) (hs0 : 0 ≤ s) (hs1 : s < 86400) :
    long_of_double ((D : ℚ) + (s : ℚ) / 86400) =
      if 0 ≤ D ∨ s = 0 then D else D + 1 := by
  have hf0 : (0 : ℚ) ≤ (s : ℚ) / 86400 := by positivity
  have hf1 : (s : ℚ) / 86400 < 1 := by
    rw [div_lt_one (by norm_num)]; exact_mod_cast hs1
  rw [long_of_double_eq]
  by_cases hD : 0 ≤ D
  · have hq : (0 : ℚ) ≤ (D : ℚ) + (s : ℚ) / 86400 := by
      have : (0 : ℚ) ≤ (D : ℚ) := by exact_mod_cast hD
      linarith
    rw [if_pos hq, if_pos (Or.inl hD), Int.floor_eq_iff]
    constructor <;> linarith
  · have hD1 : (D : ℚ) ≤ -1 := by exact_mod_cast (show D ≤ -1 by omega)
    have hq : ¬ (0 : ℚ) ≤ (D : ℚ) + (s : ℚ) / 86400 := by linarith
    rw [if_neg hq]
    by_cases hs : s = 0
    · rw [if_pos (Or.inr hs), hs]; simp
    · rw [if_neg (by tauto), Int.ceil_eq_iff]
      have : (0 : ℚ) < (s : ℚ) / 86400 := by
        have : (0 : ℚ) < (s : ℚ) := by exact_mod_cast (show 0 < s by omega)
        positivity
      push_cast
      constructor <;> linarith

/-- The value of `cal_tai` for a month in `1..12` and a time of day within
one day: below the MJD epoch the cast `(long)` rounds the day up as soon as the
time of day is not `00:00:00`. -/
theorem cal_tai_eq (t : cal_datetime_t) (h1 : 1 ≤ t.mon) (h12 : t.mon ≤ 12)
    (hs0 : 0 ≤ cal_mjd_secs t) (hs1 : cal_mjd_secs t < 86400) :
    cal_tai t =
      some (to_ulong
        ((if 0 ≤ mjd_reference t.year t.mon t.day ∨ cal_mjd_secs t = 0
            then mjd_reference t.year t.mon t.day
            else mjd_reference t.year t.mon t.day + 1) * 86400 +
          4611686014920671114 + ((t.hour * 60 + t.min - t.off) * 60 + t.sec))) := by
  simp only [cal_tai, cal_mjd_eq t h1 h12, Option.bind_eq_bind, Option.some_bind,
    Option.pure_def, long_of_double_day _ _ hs0 hs1]

/-! ## TAI stamp: claim C5 -/

/-- C5 fails below the MJD epoch: `1800-01-01 23:59:59` is one second earlier
than `1800-01-02 00:00:00` (same offset), yet `cal_tai` of the first is larger
than `cal_tai` of the second, by `86399`. -/
theorem C5_tai_not_monotone :
    cal_tai ⟨1800, 1, 1, 23, 59, 59, 0⟩ = some 4611686013062898313 ∧
    cal_tai ⟨1800, 1, 2, 0, 0, 0, 0⟩ = some 4611686013062811914 ∧
    (4611686013062811914 : Nat) < 4611686013062898313 := by
  refine ⟨?_, ?_, by norm_num⟩
  · rw [cal_tai_eq _ (by decide) (by decide) (by decide) (by decide)]
    decide
  · rw [cal_tai_eq _ (by decide) (by decide) (by decide) (by decide)]
    decide

/-! ## Julian calendar: the floor macro on rationals -/

/-- On a non-negative argument `_FL` is the floor. -/
theorem FL_eq_floor (q : ℚ) (h : 0 ≤ q) : _FL q = ⌊q⌋ := by
  rw [_FL, if_neg (by linarith), long_of_double_eq, if_pos h]

/-- On an integer `_FL` subtracts one from a negative argument. -/
theorem FL_intCast (n : Int) : _FL (n : ℚ) = if n < 0 then n - 1 else n := by
  rw [_FL, long_of_double_eq]
  by_cases h : n < 0
  · have h1 : ((n : ℚ) < 0) := by exact_mod_cast h
    rw [if_pos h1, if_pos h, if_neg (by linarith)]; simp
  · have h1 : ¬ ((n : ℚ) < 0) := by exact_mod_cast h
    rw [if_neg h1, if_neg h, if_pos (by linarith)]; simp

/-- The macro `_FL` on a quotient of a non-negative integer by a positive one. -/
theorem FL_div (a : Int) (b : Nat) (ha : 0 ≤ a) (hb : 0 < b) (q : ℚ)
    (hq : q = (a : ℚ) / (b : ℚ)) : _FL q = a / (b : Int) := by
  subst hq
  have h0 : (0 : ℚ) ≤ (a : ℚ) / (b : ℚ) := by
    have : (0 : ℚ) ≤ (a : ℚ) := by exact_mod_cast ha
    positivity
  rw [FL_eq_floor _ h0, Rat.floor_intCast_div_natCast]

/-- The Julian day number `x` of `cal_julian`. -/
theorem FL_jd (D s : Int) (hs0 : 0 ≤ s) (hs1 : s < 86400) (hx : 0 ≤ D + 2400001) :
    _FL ((D : ℚ) + (s : ℚ) / 86400 + 2400000.5 + 0.5) = D + 2400001 := by
  have hf0 : (0 : ℚ) ≤ (s : ℚ) / 86400 := by positivity
  have hf1 : (s : ℚ) / 86400 < 1 := by
    rw [div_lt_one (by norm_num)]; exact_mod_cast hs1
  have hD : (0 : ℚ) ≤ (D : ℚ) + 2400001 := by exact_mod_cast hx
  rw [FL_eq_floor _ (by linarith), Int.floor_eq_iff]
  push_cast
  constructor <;> linarith

/-- The `long c` of `cal_julian`. -/
theorem FL_c (b : Int) (hb : 123 ≤ b) :
    _FL (((b : ℚ) - 122.1) / 365.25) = (20 * b - 2442) / 7305 := by
  have := FL_div (20 * b - 2442) 7305 (by omega) (by norm_num) (((b : ℚ) - 122.1) / 365.25)
    (by push_cast; norm_num; ring)
  simpa using this

/-- The `long d` of `cal_julian`. -/
theorem FL_d (c : Int) (hc : 0 ≤ c) : _FL (365.25 * (c : ℚ)) = 1461 * c / 4 := by
  have := FL_div (1461 * c) 4 (by omega) (by norm_num) (365.25 * (c : ℚ))
    (by push_cast; norm_num; ring)
  simpa using this

/-- The `long e` of `cal_julian`. -/
theorem FL_e (n : Int) (hn : 0 ≤ n) : _FL ((n : ℚ) / 30.6001) = n * 10000 / 306001 := by
  have := FL_div (n * 10000) 306001 (by omega) (by norm_num) ((n : ℚ) / 30.6001)
    (by push_cast; norm_num; ring)
  simpa using this

/-- The days before month `e`, `_FL(30.6001 * e)`. -/
theorem FL_day (e : Int) (he : 0 ≤ e) : _FL (30.6001 * (e : ℚ)) = 306001 * e / 10000 := by
  have := FL_div (306001 * e) 10000 (by omega) (by norm_num) (30.6001 * (e : ℚ))
    (by push_cast; norm_num; ring)
  simpa using this

/-- The integer arithmetic carried out by `cal_julian` for a month in `1..12`,
a time of day within one day and a non-negative Julian day number. -/
theorem cal_julian_eq (t : cal_datetime_t) (h1 : 1 ≤ t.mon) (h12 : t.mon ≤ 12)
    (hs0 : 0 ≤ cal_mjd_secs t) (hs1 : cal_mjd_secs t < 86400)
    (hx : 0 ≤ mjd_reference t.year t.mon t.day + 2400001) :
    cal_julian t = some
      (let b := mjd_reference t.year t.mon t.day + 2400001 + 1524
       let c := (20 * b - 2442) / 7305
       let d := 1461 * c / 4
       let e := (b - d) * 10000 / 306001
       let mon := if e < 14 then e - 1 else e - 13
       let year := if mon > 2 then c - 4716 else c - 4715
       let year := if year < 0 then year - 1 else year
       { t with year := if year < 1 then year - 1 else year,
                mon := mon,
                day := b - d - 306001 * e / 10000 }) := by
  have hb : 123 ≤ mjd_reference t.year t.mon t.day + 2400001 + 1524 := by omega
  have hc : 0 ≤ (20 * (mjd_reference t.year t.mon t.day + 2400001 + 1524) - 2442) / 7305 := by
    omega
  have hbd : 0 ≤ mjd_reference t.year t.mon t.day + 2400001 + 1524 -
      1461 * ((20 * (mjd_reference t.year t.mon t.day + 2400001 + 1524) - 2442) / 7305) / 4 := by
    omega
  have he : 3 ≤ (mjd_reference t.year t.mon t.day + 2400001 + 1524 -
      1461 * ((20 * (mjd_reference t.year t.mon t.day + 2400001 + 1524) - 2442) / 7305) / 4) *
        10000 / 306001 := by
    omega
  have hmon : ¬ (if (mjd_reference t.year t.mon t.day + 2400001 + 1524 -
      1461 * ((20 * (mjd_reference t.year t.mon t.day + 2400001 + 1524) - 2442) / 7305) / 4) *
        10000 / 306001 < 14 then (mjd_reference t.year t.mon t.day + 2400001 + 1524 -
      1461 * ((20 * (mjd_reference t.year t.mon t.day + 2400001 + 1524) - 2442) / 7305) / 4) *
        10000 / 306001 - 1 else (mjd_reference t.year t.mon t.day + 2400001 + 1524 -
      1461 * ((20 * (mjd_reference t.year t.mon t.day + 2400001 + 1524) - 2442) / 7305) / 4) *
        10000 / 306001 - 13) < 0 := by
    split_ifs <;> omega
  simp only [cal_julian, cal_jd, cal_mjd_eq t h1 h12, Option.bind_eq_bind, Option.some_bind,
    Option.pure_def, FL_jd _ _ hs0 hs1 hx, FL_c _ hb, FL_d _ hc, FL_e _ hbd,
    FL_day _ (show (0 : Int) ≤ _ from le_trans (by norm_num) he), FL_intCast, if_neg hmon]

/-- A valid time of day is a number of seconds within one day. -/
theorem valid_time_secs (t : cal_datetime_t) (ht : valid_time t) :
    0 ≤ cal_mjd_secs t ∧ cal_mjd_secs t < 86400 := by
  obtain ⟨⟨a1, a2⟩, ⟨b1, b2⟩, ⟨c1, c2⟩⟩ := ht
  unfold cal_mjd_secs
  split_ifs <;> omega

/-- The reference day count with its month table in closed form. -/
theorem mjd_reference_eq (y m d : Int) (h1 : 1 ≤ m) (h12 : m ≤ 12) :
    mjd_reference y m d =
      365 * (if m ≥ 3 then y else y - 1) + (if m ≥ 3 then y else y - 1) / 4 -
        (if m ≥ 3 then y else y - 1) / 100 + (if m ≥ 3 then y else y - 1) / 400 +
        (306 * (if m ≥ 3 then m - 3 else m + 9) + 5) / 10 + d - 678882 := by
  simp only [mjd_reference]
  rw [montab_getD _ (by split_ifs <;> omega) (by split_ifs <;> omega)]

/-! ## Integer arithmetic of `cal_julian` -/

/-- The day of the March-based year, `b - d`, lies in `123..488`. -/
theorem jul_bd (b c dd : Int) (hc : c = (20 * b - 2442) / 7305) (hdd : dd = 1461 * c / 4) :
    123 ≤ b - dd ∧ b - dd ≤ 488 := by omega

/-- The month number `e` lies in `4..15`. -/
theorem jul_e (n e : Int) (hn : 123 ≤ n ∧ n ≤ 488) (he : e = n * 10000 / 306001) :
    4 ≤ e ∧ e ≤ 15 := by omega

/-- The date computed from a day number is a valid date of the Julian calendar
with that day number. -/
theorem jul_date (b c dd e mon year day : Int)
    (hc : c = (20 * b - 2442) / 7305) (hdd : dd = 1461 * c / 4)
    (he : e = (b - dd) * 10000 / 306001)
    (hmon : mon = if e < 14 then e - 1 else e - 13)
    (hyear : year = if mon > 2 then c - 4716 else c - 4715)
    (hday : day = b - dd - 306001 * e / 10000) :
    1 ≤ mon ∧ mon ≤ 12 ∧ 1 ≤ day ∧ day ≤ julian_days_in_month year mon ∧
    365 * (if mon ≥ 3 then year else year - 1) + (if mon ≥ 3 then year else year - 1) / 4 +
      (306 * (if mon ≥ 3 then mon - 3 else mon + 9) + 5) / 10 + day - 678884 =
      b - 1524 - 2400001 := by
  have hbd := jul_bd b c dd hc hdd
  obtain ⟨h4, h15⟩ := jul_e _ e hbd he
  unfold julian_days_in_month
  interval_cases e <;> simp at hmon <;> subst hmon <;> simp at hyear ⊢ <;>
    refine ⟨?_, ?_, ?_⟩ <;> (try split_ifs) <;> omega

/-- If the date is reproduced, the century correction `K` of the Gregorian day
count is `2`. -/
theorem jul_fwd (Y M d K b c dd e : Int) (hM : 0 ≤ M ∧ M ≤ 11)
    (hb : b = 365 * Y + Y / 4 - K + (306 * M + 5) / 10 + d + 1722643)
    (hcY : c = Y + 4716) (hdd : dd = 1461 * c / 4) (heM : e = M + 4)
    (hday : b - dd - 306001 * e / 10000 = d) : K = 2 := by
  obtain ⟨h0, h1⟩ := hM
  subst hcY heM hdd hb
  interval_cases M <;> omega

/-- If the century correction is `2`, a valid date is reproduced. -/
theorem jul_bwd (Y M d L b c dd e : Int) (hM : 0 ≤ M ∧ M ≤ 11) (hd : 1 ≤ d ∧ d ≤ L)
    (hL : L = if M = 11 then (if Y % 4 = 3 then 29 else 28)
      else (306 * (M + 1) + 5) / 10 - (306 * M + 5) / 10)
    (hb : b = 365 * Y + Y / 4 + (306 * M + 5) / 10 + d + 1722641)
    (hc : c = (20 * b - 2442) / 7305) (hdd : dd = 1461 * c / 4)
    (he : e = (b - dd) * 10000 / 306001) :
    c = Y + 4716 ∧ e = M + 4 ∧ b - dd - 306001 * e / 10000 = d := by
  obtain ⟨h0, h1⟩ := hM
  have hcY : c = Y + 4716 := by
    interval_cases M <;> simp at hL <;> (try split_ifs at hL) <;> omega
  have hdY : dd = 365 * Y + Y / 4 + 1722519 := by omega
  have heM : e = M + 4 := by
    interval_cases M <;> simp at hL <;> (try split_ifs at hL) <;> omega
  refine ⟨hcY, heM, ?_⟩
  interval_cases M <;> simp at hL <;> (try split_ifs at hL) <;> omega

/-- A reproduced year and month fix `c` and `e`. -/
theorem jul_out (y m Y M c e mon year : Int) (hy : 1 ≤ y) (h1 : 1 ≤ m) (h12 : m ≤ 12)
    (hY : Y = if m ≥ 3 then y else y - 1) (hM : M = if m ≥ 3 then m - 3 else m + 9)
    (he4 : 4 ≤ e ∧ e ≤ 15)
    (hmon : mon = if e < 14 then e - 1 else e - 13)
    (hyear : year = if mon > 2 then c - 4716 else c - 4715)
    (e1 : (if (if year < 0 then year - 1 else year) < 1
        then (if year < 0 then year - 1 else year) - 1
        else (if year < 0 then year - 1 else year)) = y)
    (e2 : mon = m) : c = Y + 4716 ∧ e = M + 4 := by
  split_ifs at * <;> omega

/-- In the years where the calendars agree a valid Gregorian day is within the
length of its Julian month. -/
theorem jul_len (y m Y M d : Int) (h1 : 1 ≤ m) (h12 : m ≤ 12)
    (hY : Y = if m ≥ 3 then y else y - 1) (hM : M = if m ≥ 3 then m - 3 else m + 9)
    (hYr : 200 ≤ Y ∧ Y ≤ 299) (hd2 : d ≤ days_in_month y m) :
    d ≤ (if M = 11 then (if Y % 4 = 3 then 29 else 28)
      else (306 * (M + 1) + 5) / 10 - (306 * M + 5) / 10) := by
  unfold days_in_month at hd2
  interval_cases m <;> simp at hM hY hd2 <;> subst hM <;> simp <;> (try split_ifs at *) <;> omega

/-- The dates from `0200-03-01` to `0300-02-28` are those whose century
correction is `2`. -/
theorem jul_range (y m d Y : Int) (hy : 1 ≤ y ∧ y ≤ 9999) (h1 : 1 ≤ m) (h12 : m ≤ 12)
    (hd1 : 1 ≤ d) (hd2 : d ≤ days_in_month y m)
    (hY : Y = if m ≥ 3 then y else y - 1) :
    (date_le 200 3 1 y m d ∧ date_le y m d 300 2 28) ↔ Y / 100 - Y / 400 = 2 := by
  unfold days_in_month at hd2
  unfold date_le
  split_ifs at * <;> omega

/-- The integer arithmetic of `cal_julian` reproduces a valid Gregorian date
exactly from `0200-03-01` to `0300-02-28`. -/
theorem jul_iff (y m d Y M b c dd e mon year : Int) (hy : 1 ≤ y ∧ y ≤ 9999) (h1 : 1 ≤ m)
    (h12 : m ≤ 12) (hd1 : 1 ≤ d) (hd2 : d ≤ days_in_month y m)
    (hY : Y = if m ≥ 3 then y else y - 1) (hM : M = if m ≥ 3 then m - 3 else m + 9)
    (hb : b = 365 * Y + Y / 4 - Y / 100 + Y / 400 + (306 * M + 5) / 10 + d - 678882 +
      2400001 + 1524)
    (hc : c = (20 * b - 2442) / 7305) (hdd : dd = 1461 * c / 4)
    (he : e = (b - dd) * 10000 / 306001)
    (hmon : mon = if e < 14 then e - 1 else e - 13)
    (hyear : year = if mon > 2 then c - 4716 else c - 4715) :
    ((if (if year < 0 then year - 1 else year) < 1
        then (if year < 0 then year - 1 else year) - 1
        else (if year < 0 then year - 1 else year)) = y ∧ mon = m ∧
      b - dd - 306001 * e / 10000 = d) ↔
    (date_le 200 3 1 y m d ∧ date_le y m d 300 2 28) := by
  rw [jul_range y m d Y hy h1 h12 hd1 hd2 hY]
  have hM0 : 0 ≤ M ∧ M ≤ 11 := by rw [hM]; split_ifs <;> omega
  have he4 := jul_e _ e (jul_bd b c dd hc hdd) he
  constructor
  · rintro ⟨e1, e2, e3⟩
    obtain ⟨hcY, heM⟩ := jul_out y m Y M c e mon year hy.1 h1 h12 hY hM he4 hmon hyear e1 e2
    exact jul_fwd Y M d (Y / 100 - Y / 400) b c dd e hM0 (by omega) hcY hdd heM e3
  · intro hK
    have hYr : 200 ≤ Y ∧ Y ≤ 299 := by
      have : 0 ≤ Y ∧ Y ≤ 9999 := by rw [hY]; split_ifs <;> omega
      omega
    obtain ⟨hcY, heM, hday⟩ := jul_bwd Y M d _ b c dd e hM0
      ⟨hd1, jul_len y m Y M d h1 h12 hY hM hYr hd2⟩ rfl (by omega) hc hdd he
    refine ⟨?_, ?_, hday⟩
    · clear hb hc hdd he hday hd2
      split_ifs at * <;> omega
    · clear hb hc hdd he hday hd2
      split_ifs at * <;> omega

/-! ## Julian calendar: claim C4 -/

/-- C4, as stated, fails at its own witness `2011-03-19`: `cal_julian` yields
`2011-03-06`, the date of that day in the Julian calendar. -/
theorem C4_julian_counterexample :
    valid_gregorian ⟨2011, 3, 19, 0, 0, 0, 0⟩ ∧ valid_time ⟨2011, 3, 19, 0, 0, 0, 0⟩ ∧
    cal_julian ⟨2011, 3, 19, 0, 0, 0, 0⟩ = some ⟨2011, 3, 6, 0, 0, 0, 0⟩ ∧
    ¬ ∃ r : cal_datetime_t, cal_julian ⟨2011, 3, 19, 0, 0, 0, 0⟩ = some r ∧
        r.year = 2011 ∧ r.mon = 3 ∧ r.day = 19 := by
  have h : cal_julian ⟨2011, 3, 19, 0, 0, 0, 0⟩ = some ⟨2011, 3, 6, 0, 0, 0, 0⟩ := by
    rw [cal_julian_eq _ (by decide) (by decide) (by decide) (by decide) (by decide)]
    decide
  refine ⟨by unfold valid_gregorian days_in_month; decide, by unfold valid_time; decide, h, ?_⟩
  rintro ⟨r, hr, -, -, hd⟩
  rw [h] at hr
  cases hr
  exact absurd hd (by decide)

/-- The fields left by `cal_julian`, with every intermediate `long` named. -/
theorem cal_julian_fields (t : cal_datetime_t) (h1 : 1 ≤ t.mon) (h12 : t.mon ≤ 12)
    (hs0 : 0 ≤ cal_mjd_secs t) (hs1 : cal_mjd_secs t < 86400)
    (hx : 0 ≤ mjd_reference t.year t.mon t.day + 2400001) :
    ∃ (r : cal_datetime_t) (b c d e mon year : Int), cal_julian t = some r ∧
      b = mjd_reference t.year t.mon t.day + 2400001 + 1524 ∧
      c = (20 * b - 2442) / 7305 ∧ d = 1461 * c / 4 ∧ e = (b - d) * 10000 / 306001 ∧
      mon = (if e < 14 then e - 1 else e - 13) ∧
      year = (if mon > 2 then c - 4716 else c - 4715) ∧
      r.year = (if (if year < 0 then year - 1 else year) < 1
        then (if year < 0 then year - 1 else year) - 1
        else (if year < 0 then year - 1 else year)) ∧
      r.mon = mon ∧ r.day = b - d - 306001 * e / 10000 ∧
      r.hour = t.hour ∧ r.min = t.min ∧ r.sec = t.sec ∧ r.off = t.off :=
  ⟨_, _, _, _, _, _, _, cal_julian_eq t h1 h12 hs0 hs1 hx, rfl, rfl, rfl, rfl, rfl, rfl, rfl,
    rfl, rfl, rfl, rfl, rfl, rfl⟩

/-- The Julian day count with its month table in closed form. -/
theorem julian_reference_eq (y m d : Int) (h1 : 1 ≤ m) (h12 : m ≤ 12) :
    julian_reference y m d =
      365 * (if m ≥ 3 then y else y - 1) + (if m ≥ 3 then y else y - 1) / 4 +
        (306 * (if m ≥ 3 then m - 3 else m + 9) + 5) / 10 + d - 678884 := by
  simp only [julian_reference]
  rw [montab_getD _ (by split_ifs <;> omega) (by split_ifs <;> omega)]

/-- What `cal_julian` computes: for a record with `1 ≤ year ≤ 9999`, a valid
Gregorian month and day and a time of day within one day, the result is a
valid date of the Julian calendar whose day count is the day count of the
Gregorian date given, and the time of day and the offset are left alone. -/
theorem cal_julian_gives_julian_date (t : cal_datetime_t)
    (hy : 1 ≤ t.year ∧ t.year ≤ 9999) (hv : valid_gregorian t) (ht : valid_time t) :
    ∃ r : cal_datetime_t, cal_julian t = some r ∧
      1 ≤ r.mon ∧ r.mon ≤ 12 ∧ 1 ≤ r.day ∧ r.day ≤ julian_days_in_month r.year r.mon ∧
      julian_reference r.year r.mon r.day = mjd_reference t.year t.mon t.day ∧
      r.hour = t.hour ∧ r.min = t.min ∧ r.sec = t.sec ∧ r.off = t.off := by
  obtain ⟨hs0, hs1⟩ := valid_time_secs t ht
  obtain ⟨h1, h12, hd1, hd2⟩ := hv
  have hD : -678575 ≤ mjd_reference t.year t.mon t.day := by
    rw [mjd_reference_eq _ _ _ h1 h12]
    split_ifs <;> omega
  obtain ⟨r, b, c, dd, e, mon, year, hr, hb, hc, hdd, he, hmon, hyear, ry, rm, rd, rh, rmi,
    rs, ro⟩ := cal_julian_fields t h1 h12 hs0 hs1 (by omega)
  obtain ⟨m1, m12, d1, d31, hJ⟩ := jul_date b c dd e mon year _ hc hdd he hmon hyear rfl
  have hy1 : 1 ≤ year := by
    unfold julian_days_in_month at d31
    clear hc hdd he hmon hyear hd2
    split_ifs at * <;> omega
  have ry1 : r.year = year := by
    rw [ry]; split_ifs <;> omega
  refine ⟨r, hr, ?_⟩
  rw [julian_reference_eq _ _ _ (by rw [rm]; exact m1) (by rw [rm]; exact m12), ry1, rm, rd]
  exact ⟨m1, m12, d1, d31, by omega, rh, rmi, rs, ro⟩

/-- C4, amended: for every record with `1 ≤ year ≤ 9999`, a valid Gregorian
month and day and a time of day from `00:00:00` to `23:59:59`, `cal_julian`
succeeds, and it reproduces the year, month and day unchanged exactly when the
date lies from `0200-03-01` to `0300-02-28`, the dates on which the Julian and
the Gregorian calendar agree. -/
theorem C4_julian_reproduces_iff (t : cal_datetime_t)
    (hy : 1 ≤ t.year ∧ t.year ≤ 9999) (hv : valid_gregorian t) (ht : valid_time t) :
    ∃ r : cal_datetime_t, cal_julian t = some r ∧
      ((r.year = t.year ∧ r.mon = t.mon ∧ r.day = t.day) ↔
        (date_le 200 3 1 t.year t.mon t.day ∧ date_le t.year t.mon t.day 300 2 28)) := by
  obtain ⟨hs0, hs1⟩ := valid_time_secs t ht
  obtain ⟨h1, h12, hd1, hd2⟩ := hv
  have hx : 0 ≤ mjd_reference t.year t.mon t.day + 2400001 := by
    rw [mjd_reference_eq _ _ _ h1 h12]
    split_ifs <;> omega
  obtain ⟨r, b, c, dd, e, mon, year, hr, hb, hc, hdd, he, hmon, hyear, ry, rm, rd, -⟩ :=
    cal_julian_fields t h1 h12 hs0 hs1 hx
  refine ⟨r, hr, ?_⟩
  rw [ry, rm, rd]
  exact jul_iff t.year t.mon t.day _ _ b c dd e mon year hy h1 h12 hd1 hd2 rfl rfl
    (by rw [hb, mjd_reference_eq _ _ _ h1 h12]) hc hdd he hmon hyear

/-- Witness of the amended C4 at `0250-06-15 12:30:45`. -/
theorem C4_julian_reproduces_iff_witness :
    ∃ r : cal_datetime_t, cal_julian ⟨250, 6, 15, 12, 30, 45, 0⟩ = some r ∧
      ((r.year = 250 ∧ r.mon = 6 ∧ r.day = 15) ↔
        (date_le 200 3 1 250 6 15 ∧ date_le 250 6 15 300 2 28)) :=
  C4_julian_reproduces_iff ⟨250, 6, 15, 12, 30, 45, 0⟩ (by decide)
    (by unfold valid_gregorian days_in_month; decide) (by unfold valid_time; decide)

/-! ## Leap seconds: subtracting then adding, claim C11 -/

/-- After a successful `cal_leapsecs_init` a second call returns the same
count and leaves the table as it is. -/
theorem cal_leapsecs_init_again (file : Option (Option (List Nat))) (st st1 : cal_leapsecs_s)
    (n : Int) (hinit : cal_leapsecs_init file st = (n, st1)) (hn : n ≠ -1) :
    cal_leapsecs_init file st1 = (n, st1) := by
  unfold cal_leapsecs_init at hinit ⊢
  by_cases h : st.count ≠ 0
  · rw [if_pos h] at hinit
    cases hinit
    rw [if_pos h]
  · rw [if_neg h] at hinit
    rcases file with _ | _ | bytes
    · simp at hinit; omega
    · simp [cal_leapsecs_load] at hinit; omega
    · simp only [cal_leapsecs_load] at hinit ⊢
      cases hinit
      split
      · rfl
      · rfl

/-- Entries up to `tai` split into those below `t1` and those from `t1` to `tai`. -/
theorem countP_split (l : List Nat) (t1 tai : Nat) (h : t1 ≤ tai) :
    l.countP (· ≤ tai) = l.countP (· < t1) + l.countP (fun e => t1 ≤ e ∧ e ≤ tai) := by
  induction l with
  | nil => simp
  | cons e rest ih =>
    simp only [List.countP_cons, ih, decide_eq_true_eq]
    split_ifs <;> omega

/-- C11: for every loaded strictly ascending table with `n` entries and every
`tai ≥ n`, `cal_leapsecs_sub` (which subtracts `r1`) followed by
`cal_leapsecs_add` on the result gives `t2` with `t2 ≤ tai` and `tai - t2 ≤ n`;
`tai - t2` is the number of table entries in the closed interval
`[tai - r1, tai]`, so `t2 = tai` exactly when no entry lies in that interval. -/
theorem C11_sub_then_add (file : Option (Option (List Nat))) (st st1 st2 st3 : cal_leapsecs_s)
    (n r1 r2 : Int) (tai t1 t2 : Nat)
    (hinit : cal_leapsecs_init file st = (n, st1)) (hn : n ≠ -1)
    (hs : st1.list.Sorted (· < ·)) (htai : tai < 2 ^ 64) (hge : st1.list.length ≤ tai)
    (hsub : cal_leapsecs_sub file st tai = (r1, t1, st2))
    (hadd : cal_leapsecs_add file st2 t1 = (r2, t2, st3)) :
    (t1 : Int) = (tai : Int) - r1 ∧ t2 ≤ tai ∧ tai - t2 ≤ st1.list.length ∧
    tai - t2 = st1.list.countP (fun e => t1 ≤ e ∧ e ≤ tai) ∧
    (t2 = tai ↔ ∀ e ∈ st1.list, ¬ (t1 ≤ e ∧ e ≤ tai)) := by
  have hle : st1.list.countP (· ≤ tai) ≤ st1.list.length := List.countP_le_length _
  simp only [cal_leapsecs_sub, hinit, if_neg hn,
    scan_le_sorted tai st1.list (hs.imp (fun h => Nat.le_of_lt h)) 0, zero_add,
    Prod.mk.injEq] at hsub
  obtain ⟨hr1, ht1, rfl⟩ := hsub
  have ht1' : t1 = tai - st1.list.countP (· ≤ tai) := by
    rw [← ht1]; unfold to_ulong
    norm_num at htai ⊢
    omega
  simp only [cal_leapsecs_add, cal_leapsecs_init_again file st st1 n hinit hn, if_neg hn,
    scan_add_sorted t1 st1.list hs 0, zero_add, Prod.mk.injEq] at hadd
  obtain ⟨hr2, ht2, rfl⟩ := hadd
  have hsplit := countP_split st1.list t1 tai (by omega)
  have ht2' : t2 = t1 + st1.list.countP (· < t1) := by
    rw [← ht2]; unfold to_ulong
    norm_num at htai ⊢
    omega
  have hcnt : tai - t2 = st1.list.countP (fun e => t1 ≤ e ∧ e ≤ tai) := by omega
  refine ⟨by omega, by omega, by omega, hcnt, ?_⟩
  rw [show t2 = tai ↔ st1.list.countP (fun e => t1 ≤ e ∧ e ≤ tai) = 0 by omega,
    List.countP_eq_zero]
  simp

/-- Witness of C11 on the table `[100, 200, 300]` at `tai = 201`: `sub` stores
`199`, `add` gives back `200`, and one entry, `200`, lies in `[199, 201]`. -/
theorem C11_sub_then_add_witness :
    ((199 : Nat) : Int) = ((201 : Nat) : Int) - 2 ∧ 200 ≤ 201 ∧
    201 - 200 ≤ ([100, 200, 300] : List Nat).length ∧
    201 - 200 = ([100, 200, 300] : List Nat).countP (fun e => 199 ≤ e ∧ e ≤ 201) ∧
    (200 = 201 ↔ ∀ e ∈ ([100, 200, 300] : List Nat), ¬ (199 ≤ e ∧ e ≤ 201)) :=
  C11_sub_then_add none ⟨[100, 200, 300]⟩ ⟨[100, 200, 300]⟩ ⟨[100, 200, 300]⟩
    ⟨[100, 200, 300]⟩ 3 2 1 201 199 200 (by decide) (by decide) (by decide) (by norm_num)
    (by decide) (by decide) (by decide)

/-! ## Day of the week: claim C12, and the weekday from the day count -/

/-- C12 fails for a large negative year: for `-5000-03-01` the sum is negative
and C's `%` keeps its sign, so `cal_weekday` returns `-1`, outside `0..6`. -/
theorem C12_weekday_negative :
    cal_weekday ⟨-5000, 3, 1, 0, 0, 0, 0⟩ = -1 ∧
    ¬ (0 ≤ cal_weekday ⟨-5000, 3, 1, 0, 0, 0, 0⟩ ∧ cal_weekday ⟨-5000, 3, 1, 0, 0, 0, 0⟩ ≤ 6) := by
  decide

/-- The value of `cal_weekday` for a year from `100` on, a month in `1..12` and
a day from `1` on: the day count of the date plus two, modulo seven. -/
theorem cal_weekday_eq (y m d : Int) (hy : 100 ≤ y) (h1 : 1 ≤ m) (h12 : m ≤ 12) (hd : 1 ≤ d)
    (hh mi s o : Int) :
    cal_weekday ⟨y, m, d, hh, mi, s, o⟩ = (mjd_reference y m d + 2) % 7 := by
  have e1 : (if y < 100 then y + 2000 else y) = y := if_neg (by omega)
  rw [mjd_reference_eq _ _ _ h1 h12]
  simp only [cal_weekday, e1, tdiv_eq_ite _ 4 (by norm_num), tdiv_eq_ite _ 100 (by norm_num),
    tdiv_eq_ite _ 400 (by norm_num), tdiv_eq_ite _ 10 (by norm_num)]
  interval_cases m <;> norm_num <;>
    rw [if_pos (by omega), if_pos (by omega), if_pos (by omega),
      Int.tmod_eq_emod (by omega) (by norm_num)] <;>
    omega

/-- The day following a valid Gregorian date is a valid Gregorian date, of the
same or the next year, and its day count is one more. -/
theorem next_day_spec (t : cal_datetime_t) (hv : valid_gregorian t) :
    valid_gregorian (next_day t) ∧ t.year ≤ (next_day t).year ∧
    mjd_reference (next_day t).year (next_day t).mon (next_day t).day =
      mjd_reference t.year t.mon t.day + 1 := by
  obtain ⟨y, m, d, hh, mi, s, o⟩ := t
  obtain ⟨h1, h12, hd1, hd2⟩ := hv
  simp only at h1 h12 hd1 hd2
  have key : ∀ y1 m1 d1 : Int, 1 ≤ m1 → m1 ≤ 12 → 1 ≤ d1 → d1 ≤ days_in_month y1 m1 →
      y ≤ y1 → mjd_reference y1 m1 d1 = mjd_reference y m d + 1 →
      valid_gregorian ⟨y1, m1, d1, hh, mi, s, o⟩ ∧ y ≤ y1 ∧
      mjd_reference y1 m1 d1 = mjd_reference y m d + 1 :=
    fun y1 m1 d1 a b c e f g => ⟨⟨a, b, c, e⟩, f, g⟩
  unfold next_day
  simp only []
  by_cases hlt : d < days_in_month y m
  · rw [if_pos hlt]
    refine key y m (d + 1) h1 h12 (by omega) (by omega) (by omega) ?_
    rw [mjd_reference_eq _ _ _ h1 h12, mjd_reference_eq _ _ _ h1 h12]
    omega
  · rw [if_neg hlt]
    have hd : d = days_in_month y m := by omega
    by_cases hm : m < 12
    · rw [if_pos hm]
      refine key y (m + 1) 1 (by omega) (by omega) (by omega) ?_ (by omega) ?_
      · unfold days_in_month; split_ifs <;> omega
      · rw [mjd_reference_eq _ _ _ (by omega) (by omega), mjd_reference_eq _ _ _ h1 h12, hd]
        unfold days_in_month
        interval_cases m <;> norm_num <;> (try split_ifs) <;> omega
    · rw [if_neg hm]
      have hm12 : m = 12 := by omega
      subst hm12
      refine key (y + 1) 1 1 (by omega) (by omega) (by omega) ?_ (by omega) ?_
      · unfold days_in_month; split_ifs <;> omega
      · rw [mjd_reference_eq _ _ _ (by omega) (by omega), mjd_reference_eq _ _ _ h1 h12, hd]
        unfold days_in_month
        norm_num
        omega

/-! ## ISO text: the parser on a text given by its parts -/

/-- The parser `cal_parse` as a chain of its steps. -/
theorem cal_parse_steps (s : List Nat) :
    cal_parse s =
      (expect_char 45 (scan_digits (year_sign s).2 0).2).bind fun t1 =>
      (expect_char 45 (scan_digits t1 0).2).bind fun t2 =>
      (expect_char 58 (scan_digits (skip_date_sep (scan_digits t2 0).2) 0).2).bind fun t3 =>
      (offset_sign (skip_blank (opt_seconds (scan_digits t3 0).2).2)).bind fun p =>
      (offset_digit p.2).bind fun q3 =>
      (offset_digit q3.2).bind fun q2 =>
      (offset_digit q2.2).bind fun q1 =>
      (offset_digit q1.2).bind fun q0 =>
      some { year := to_long (u64 ((scan_digits (year_sign s).2 0).1 * to_ulong (year_sign s).1)),
             mon := to_long (scan_digits t1 0).1,
             day := to_long (scan_digits t2 0).1,
             hour := to_long (scan_digits (skip_date_sep (scan_digits t2 0).2) 0).1,
             min := to_long (scan_digits t3 0).1,
             sec := (opt_seconds (scan_digits t3 0).2).1,
             off := to_long (u64 (u64 (u64 (u64 (q3.1 * 10 + q2.1) * 6 + q1.1) * 10 + q0.1) *
               to_ulong p.1)) } := by
  rfl

/-- An ASCII digit passes the test of the digit loop. -/
theorem digit_of_is_digit (ch : Nat) (h : is_digit ch) : digit_of ch ≤ 9 ∧ digit_of ch = ch - 48 := by
  obtain ⟨h1, h2⟩ := h
  unfold digit_of
  omega

/-- A byte that passes the test of the digit loop is an ASCII digit. -/
theorem is_digit_of_digit_of (ch : Nat) (hb : ch < 256) (h : digit_of ch ≤ 9) : is_digit ch := by
  unfold digit_of at h
  unfold is_digit
  omega

/-- The digit loop on a run of digits followed by a byte that is no digit. -/
theorem scan_digits_run (ds : List Nat) (c : Nat) (r : List Nat) (z : Nat)
    (hds : ∀ ch ∈ ds, is_digit ch) (hc : 9 < digit_of c) :
    scan_digits (ds ++ c :: r) z = ((scan_digits ds z).1, c :: r) := by
  induction ds generalizing z with
  | nil => simp [scan_digits, show ¬ digit_of c ≤ 9 by omega]
  | cons d ds ih =>
    have hd := (digit_of_is_digit d (hds d (List.mem_cons_self _ _))).1
    simp only [List.cons_append, scan_digits, if_pos hd]
    exact ih _ (fun ch h => hds ch (List.mem_cons_of_mem _ h))

/-- The first blank loop on a run of its characters followed by another byte. -/
theorem skip_date_sep_run (ws : List Nat) (c : Nat) (r : List Nat)
    (hws : ∀ ch ∈ ws, ch = 32 ∨ ch = 9 ∨ ch = 84) (hc : ¬ (c = 32 ∨ c = 9 ∨ c = 84)) :
    skip_date_sep (ws ++ c :: r) = c :: r := by
  induction ws with
  | nil => simp [skip_date_sep, hc]
  | cons w ws ih =>
    simp only [List.cons_append, skip_date_sep, if_pos (hws w (List.mem_cons_self _ _))]
    exact ih (fun ch h => hws ch (List.mem_cons_of_mem _ h))

/-- The second blank loop on a run of its characters followed by another byte. -/
theorem skip_blank_run (bs : List Nat) (c : Nat) (r : List Nat)
    (hbs : ∀ ch ∈ bs, ch = 32 ∨ ch = 9) (hc : ¬ (c = 32 ∨ c = 9)) :
    skip_blank (bs ++ c :: r) = c :: r := by
  induction bs with
  | nil => simp [skip_blank, hc]
  | cons w bs ih =>
    simp only [List.cons_append, skip_blank, if_pos (hbs w (List.mem_cons_self _ _))]
    exact ih (fun ch h => hbs ch (List.mem_cons_of_mem _ h))

/-- A run followed by a byte starts with a byte having a property that the
run and the byte both have. -/
theorem head_of_run (P : Nat → Prop) (xs : List Nat) (c : Nat) (r : List Nat)
    (hxs : ∀ ch ∈ xs, P ch) (hc : P c) : ∃ c1 r1, xs ++ c :: r = c1 :: r1 ∧ P c1 := by
  cases xs with
  | nil => exact ⟨c, r, rfl, hc⟩
  | cons x xs => exact ⟨x, xs ++ c :: r, rfl, hxs x (List.mem_cons_self _ _)⟩

/-- The optional seconds on `:SS` followed by the blanks and the sign. -/
theorem opt_seconds_secs (secs : Option (List Nat)) (c : Nat) (r : List Nat)
    (hsecs : ∀ ss, secs = some ss → ∀ ch ∈ ss, is_digit ch)
    (hc : c = 32 ∨ c = 9 ∨ c = 43 ∨ c = 45) :
    opt_seconds (secs_text secs ++ c :: r) =
      (secs_value secs, c :: r) := by
  have hnd : 9 < digit_of c := by
    rcases hc with rfl | rfl | rfl | rfl <;> decide
  cases secs with
  | none =>
    have : c ≠ 58 := by omega
    simp [secs_text, opt_seconds, secs_value, this]
  | some ss =>
    simp only [secs_text, List.cons_append, opt_seconds, ne_eq, not_true_eq_false, if_false,
      scan_digits_run ss c r 0 (hsecs ss rfl) hnd, secs_value]

/-- An offset position holding an ASCII digit. -/
theorem offset_digit_is_digit (ch : Nat) (t : List Nat) (h : is_digit ch) :
    offset_digit (ch :: t) = some (ch - 48, t) := by
  obtain ⟨h1, h2⟩ := digit_of_is_digit ch h
  rw [offset_digit, if_neg (by omega), h2]

/-- The value of the offset read from a sign and four digits. -/
theorem offset_value (a b c d : Nat) (ha : a ≤ 9) (hb : b ≤ 9) (hc : c ≤ 9) (hd : d ≤ 9)
    (sgn : Int) (hs : sgn = 1 ∨ sgn = -1) :
    to_long (u64 (u64 (u64 (u64 (a * 10 + b) * 6 + c) * 10 + d) * to_ulong sgn)) =
      sgn * (((10 * a + b) * 60 + (10 * c + d) : Nat) : Int) := by
  rcases hs with rfl | rfl
  · simp (disch := omega) only [to_ulong_one, u64_small, to_long_small, Nat.mul_one]
    omega
  · simp (disch := omega) only [to_ulong_neg_one, u64_small, to_long_neg]
    omega

/-- The record read by `cal_parse` from a text given by well-formed parts in
which the digits of the day are not followed directly by those of the hour. -/
theorem cal_parse_parts (p : iso_parts) (hwf : p.wf) (hcanon : p.ws = [] → p.hs = []) :
    cal_parse p.text = some
      { year := to_long (u64 ((scan_digits p.ys 0).1 * to_ulong (if p.neg then -1 else 1))),
        mon := to_long (scan_digits p.ms 0).1,
        day := to_long (scan_digits p.ds 0).1,
        hour := to_long (scan_digits p.hs 0).1,
        min := to_long (scan_digits p.ns 0).1,
        sec := secs_value p.secs,
        off := (if p.sg = 43 then 1 else -1) *
          (((10 * (p.o3 - 48) + (p.o2 - 48)) * 60 + (10 * (p.o1 - 48) + (p.o0 - 48)) : Nat) :
            Int) } := by
  obtain ⟨neg, ys, ms, ds, ws, hs, ns, secs, bs, sg, o3, o2, o1, o0, rest⟩ := p
  obtain ⟨hneg, hys, hms, hds, hws, hhs, hns, hsecs, hbs, hsg, h3, h2, h1, h0⟩ := hwf
  simp only at hneg hys hms hds hws hhs hns hsecs hbs hsg h3 h2 h1 h0 hcanon
  simp only [iso_parts.text]
  have nd45 : 9 < digit_of 45 := by decide
  have nd58 : 9 < digit_of 58 := by decide
  -- the sign of the year
  have hsign : year_sign ((if neg = true then [45] else []) ++ (ys ++ 45 :: (ms ++ 45 :: (ds ++
      (ws ++ (hs ++ 58 :: (ns ++ (secs_text secs ++ (bs ++
        sg :: o3 :: o2 :: o1 :: o0 :: rest))))))))) =
      ((if neg = true then -1 else 1), ys ++ 45 :: (ms ++ 45 :: (ds ++
      (ws ++ (hs ++ 58 :: (ns ++ (secs_text secs ++ (bs ++
        sg :: o3 :: o2 :: o1 :: o0 :: rest)))))))) := by
    cases neg with
    | true => simp [year_sign]
    | false =>
      cases ys with
      | nil => exact absurd rfl (hneg rfl)
      | cons y ys =>
        have := hys y (List.mem_cons_self _ _)
        have hy45 : y ≠ 45 := by unfold is_digit at this; omega
        simp [year_sign, hy45]
  -- the byte after the digits of the day
  obtain ⟨c1, r1, e1, hc1⟩ : ∃ c1 r1, ws ++ (hs ++ 58 :: (ns ++ (secs_text secs ++ (bs ++
      sg :: o3 :: o2 :: o1 :: o0 :: rest)))) = c1 :: r1 ∧ 9 < digit_of c1 := by
    cases ws with
    | nil => rw [hcanon rfl]; exact ⟨58, _, rfl, nd58⟩
    | cons w ws =>
      refine ⟨w, _, rfl, ?_⟩
      rcases hws w (List.mem_cons_self _ _) with rfl | rfl | rfl <;> decide
  -- the byte after the first run of blanks
  obtain ⟨c2, r2, e2, hc2⟩ := head_of_run (fun ch => ¬ (ch = 32 ∨ ch = 9 ∨ ch = 84)) hs 58
    (ns ++ (secs_text secs ++ (bs ++ sg :: o3 :: o2 :: o1 :: o0 :: rest)))
    (fun ch h => by have := hhs ch h; unfold is_digit at this; omega) (by omega)
  -- the byte after the optional seconds
  obtain ⟨c3, r3, e3, hc3⟩ := head_of_run (fun ch => ch = 32 ∨ ch = 9 ∨ ch = 43 ∨ ch = 45) bs sg
    (o3 :: o2 :: o1 :: o0 :: rest) (fun ch h => by have := hbs ch h; omega) (by omega)
  -- the byte after the minutes
  obtain ⟨c4, r4, e4, hc4⟩ : ∃ c4 r4, secs_text secs ++ (bs ++
      sg :: o3 :: o2 :: o1 :: o0 :: rest) = c4 :: r4 ∧ 9 < digit_of c4 := by
    cases secs with
    | none =>
      refine ⟨c3, r3, by simpa [secs_text] using e3, ?_⟩
      rcases hc3 with rfl | rfl | rfl | rfl <;> decide
    | some ss => exact ⟨58, _, rfl, nd58⟩
  have hsk : skip_blank (bs ++ sg :: o3 :: o2 :: o1 :: o0 :: rest) =
      sg :: o3 :: o2 :: o1 :: o0 :: rest :=
    skip_blank_run bs sg _ hbs (by omega)
  have hos : offset_sign (sg :: o3 :: o2 :: o1 :: o0 :: rest) =
      some ((if sg = 43 then 1 else -1), o3 :: o2 :: o1 :: o0 :: rest) := by
    rcases hsg with rfl | rfl <;> simp [offset_sign]
  rw [cal_parse_steps, hsign]
  simp only [scan_digits_run ys 45 _ 0 hys nd45, expect_char_same, Option.some_bind,
    scan_digits_run ms 45 _ 0 hms nd45]
  rw [e1, scan_digits_run ds c1 r1 0 hds hc1, ← e1]
  simp only []
  rw [e2, skip_date_sep_run ws c2 r2 hws hc2, ← e2]
  simp only [scan_digits_run hs 58 _ 0 hhs nd58, expect_char_same, Option.some_bind]
  rw [e4, scan_digits_run ns c4 r4 0 hns hc4, ← e4]
  simp only []
  rw [e3, opt_seconds_secs secs c3 r3 hsecs hc3, ← e3]
  simp only [hsk, hos, Option.some_bind, offset_digit_is_digit _ _ h3,
    offset_digit_is_digit _ _ h2, offset_digit_is_digit _ _ h1, offset_digit_is_digit _ _ h0]
  unfold is_digit at h3 h2 h1 h0
  rw [offset_value _ _ _ _ (by omega) (by omega) (by omega) (by omega) _
    (by split_ifs <;> simp)]

/-! ## ISO text: the parts of a text that `cal_parse` accepts -/

/-- What the digit loop consumes is a run of bytes that pass its test. -/
theorem scan_digits_split (t : List Nat) (z : Nat) :
    ∃ ds, t = ds ++ (scan_digits t z).2 ∧ ∀ ch ∈ ds, digit_of ch ≤ 9 := by
  induction t generalizing z with
  | nil => exact ⟨[], by simp [scan_digits], by simp⟩
  | cons c t ih =>
    by_cases h : digit_of c ≤ 9
    · obtain ⟨ds, e, hds⟩ := ih (u64 (z * 10 + digit_of c))
      refine ⟨c :: ds, ?_, ?_⟩
      · simp only [scan_digits, if_pos h, List.cons_append]
        rw [← e]
      · intro ch hch
        rcases List.mem_cons.1 hch with rfl | h1
        · exact h
        · exact hds ch h1
    · exact ⟨[], by simp [scan_digits, h], by simp⟩

/-- What the first blank loop consumes is a run of its characters. -/
theorem skip_date_sep_split (t : List Nat) :
    ∃ ws, t = ws ++ skip_date_sep t ∧ ∀ ch ∈ ws, ch = 32 ∨ ch = 9 ∨ ch = 84 := by
  induction t with
  | nil => exact ⟨[], by simp [skip_date_sep], by simp⟩
  | cons c t ih =>
    by_cases h : c = 32 ∨ c = 9 ∨ c = 84
    · obtain ⟨ws, e, hws⟩ := ih
      refine ⟨c :: ws, ?_, ?_⟩
      · simp only [skip_date_sep, if_pos h, List.cons_append]
        rw [← e]
      · intro ch hch
        rcases List.mem_cons.1 hch with rfl | h1
        · exact h
        · exact hws ch h1
    · exact ⟨[], by simp [skip_date_sep, h], by simp⟩

/-- What the second blank loop consumes is a run of its characters. -/
theorem skip_blank_split (t : List Nat) :
    ∃ bs, t = bs ++ skip_blank t ∧ ∀ ch ∈ bs, ch = 32 ∨ ch = 9 := by
  induction t with
  | nil => exact ⟨[], by simp [skip_blank], by simp⟩
  | cons c t ih =>
    by_cases h : c = 32 ∨ c = 9
    · obtain ⟨bs, e, hbs⟩ := ih
      refine ⟨c :: bs, ?_, ?_⟩
      · simp only [skip_blank, if_pos h, List.cons_append]
        rw [← e]
      · intro ch hch
        rcases List.mem_cons.1 hch with rfl | h1
        · exact h
        · exact hbs ch h1
    · exact ⟨[], by simp [skip_blank, h], by simp⟩

/-- A separator test that passes has read the separator. -/
theorem expect_char_some (c : Nat) (t t1 : List Nat) (h : expect_char c t = some t1) :
    t = c :: t1 := by
  cases t with
  | nil => simp [expect_char] at h
  | cons x t =>
    by_cases hx : x = c
    · subst hx; simp [expect_char] at h; rw [h]
    · simp [expect_char, hx] at h

/-- An accepted sign is `'+'` or `'-'`. -/
theorem offset_sign_some (t : List Nat) (q : Int × List Nat) (h : offset_sign t = some q) :
    ∃ sg, t = sg :: q.2 ∧ (sg = 43 ∨ sg = 45) := by
  cases t with
  | nil => simp [offset_sign] at h
  | cons x t =>
    simp only [offset_sign] at h
    split_ifs at h with h1 h2
    · cases h; exact ⟨x, rfl, Or.inl h1⟩
    · cases h; exact ⟨x, rfl, Or.inr h2⟩

/-- An accepted offset position holds a byte that passes the digit test. -/
theorem offset_digit_some (t : List Nat) (q : Nat × List Nat) (h : offset_digit t = some q) :
    ∃ ch, t = ch :: q.2 ∧ digit_of ch ≤ 9 := by
  cases t with
  | nil => simp [offset_digit] at h
  | cons x t =>
    simp only [offset_digit] at h
    split_ifs at h with h1
    cases h
    exact ⟨x, rfl, by omega⟩

/-- The sign of the year is a leading `'-'`, and a text without it does not
start with `'-'`. -/
theorem year_sign_split (s : List Nat) :
    ∃ neg : Bool, s = (if neg then [45] else []) ++ (year_sign s).2 ∧
      (neg = false → ∀ r, (year_sign s).2 ≠ 45 :: r) := by
  cases s with
  | nil => exact ⟨false, by simp [year_sign], by simp [year_sign]⟩
  | cons c t =>
    by_cases h : c = 45
    · exact ⟨true, by simp [year_sign, h], by simp⟩
    · refine ⟨false, by simp [year_sign, h], ?_⟩
      intro _ r hr
      simp [year_sign, h] at hr

/-- What the optional seconds consume is nothing or `':'` and a run of bytes
that pass the digit test. -/
theorem opt_seconds_split (t : List Nat) :
    ∃ secs, t = secs_text secs ++ (opt_seconds t).2 ∧
      ∀ ss, secs = some ss → ∀ ch ∈ ss, digit_of ch ≤ 9 := by
  cases t with
  | nil => exact ⟨none, by simp [secs_text, opt_seconds], by simp⟩
  | cons c t =>
    by_cases h : c = 58
    · obtain ⟨ss, e, hss⟩ := scan_digits_split t 0
      refine ⟨some ss, ?_, ?_⟩
      · simp only [secs_text, opt_seconds, h, ne_eq, not_true_eq_false, if_false,
          List.cons_append]
        rw [← e]
      · intro ss1 h1
        cases h1
        exact hss
    · exact ⟨none, by simp [secs_text, opt_seconds, h], by simp⟩

/-- A text accepted by `cal_parse` is made of well-formed parts. -/
theorem cal_parse_some_parts (s : List Nat) (hbytes : ∀ ch ∈ s, ch < 256)
    (r : cal_datetime_t) (h : cal_parse s = some r) : ∃ p : iso_parts, p.wf ∧ p.text = s := by
  rw [cal_parse_steps] at h
  simp only [Option.bind_eq_some] at h
  obtain ⟨t1, h1, t2, h2, t3, h3, q, hq, q3, hq3, q2, hq2, q1, hq1, q0, hq0, -⟩ := h
  obtain ⟨neg, e0, hneg⟩ := year_sign_split s
  obtain ⟨ys, eys, hys⟩ := scan_digits_split (year_sign s).2 0
  obtain ⟨ms, ems, hms⟩ := scan_digits_split t1 0
  obtain ⟨ds, eds, hds⟩ := scan_digits_split t2 0
  obtain ⟨ws, ews, hws⟩ := skip_date_sep_split (scan_digits t2 0).2
  obtain ⟨hs, ehs, hhs⟩ := scan_digits_split (skip_date_sep (scan_digits t2 0).2) 0
  obtain ⟨ns, ens, hns⟩ := scan_digits_split t3 0
  obtain ⟨secs, esecs, hsecs⟩ := opt_seconds_split (scan_digits t3 0).2
  obtain ⟨bs, ebs, hbs⟩ := skip_blank_split (opt_seconds (scan_digits t3 0).2).2
  obtain ⟨sg, esg, hsg⟩ := offset_sign_some _ _ hq
  obtain ⟨o3, eo3, ho3⟩ := offset_digit_some _ _ hq3
  obtain ⟨o2, eo2, ho2⟩ := offset_digit_some _ _ hq2
  obtain ⟨o1, eo1, ho1⟩ := offset_digit_some _ _ hq1
  obtain ⟨o0, eo0, ho0⟩ := offset_digit_some _ _ hq0
  have x1 := expect_char_some _ _ _ h1
  have x2 := expect_char_some _ _ _ h2
  have x3 := expect_char_some _ _ _ h3
  have a1 : (year_sign s).2 = ys ++ 45 :: t1 := eys.trans (congrArg (ys ++ ·) x1)
  have a2 : t1 = ms ++ 45 :: t2 := ems.trans (congrArg (ms ++ ·) x2)
  have b1 : skip_date_sep (scan_digits t2 0).2 = hs ++ 58 :: t3 :=
    ehs.trans (congrArg (hs ++ ·) x3)
  have b2 : (scan_digits t2 0).2 = ws ++ (hs ++ 58 :: t3) := ews.trans (congrArg (ws ++ ·) b1)
  have a3 : t2 = ds ++ (ws ++ (hs ++ 58 :: t3)) := eds.trans (congrArg (ds ++ ·) b2)
  have c1 : q.2 = o3 :: o2 :: o1 :: o0 :: q0.2 := by rw [eo3, eo2, eo1, eo0]
  have c2 : (opt_seconds (scan_digits t3 0).2).2 = bs ++ sg :: o3 :: o2 :: o1 :: o0 :: q0.2 :=
    ebs.trans (congrArg (bs ++ ·) (esg.trans (congrArg (sg :: ·) c1)))
  have c3 : (scan_digits t3 0).2 =
      secs_text secs ++ (bs ++ sg :: o3 :: o2 :: o1 :: o0 :: q0.2) :=
    esecs.trans (congrArg (secs_text secs ++ ·) c2)
  have a4 : t3 = ns ++ (secs_text secs ++ (bs ++ sg :: o3 :: o2 :: o1 :: o0 :: q0.2)) :=
    ens.trans (congrArg (ns ++ ·) c3)
  have htext : s = (if neg then [45] else []) ++ (ys ++ 45 :: (ms ++ 45 :: (ds ++ (ws ++ (hs ++
      58 :: (ns ++ (secs_text secs ++ (bs ++ sg :: o3 :: o2 :: o1 :: o0 :: q0.2)))))))) := by
    rw [← a4, ← a3, ← a2, ← a1]
    exact e0
  have hys0 : neg = false → ys ≠ [] := by
    intro hn hy
    rw [hy, List.nil_append] at a1
    exact hneg hn _ a1
  clear h1 h2 h3 hq hq3 hq2 hq1 hq0 x1 x2 x3 a1 a2 a3 a4 b1 b2 c1 c2 c3 e0 eys ems eds ews ehs
    ens esecs ebs esg eo3 eo2 eo1 eo0 hneg
  rw [htext] at hbytes
  simp only [List.mem_append, List.mem_cons, or_imp, forall_and, forall_eq] at hbytes
  obtain ⟨-, bys, -, bms, -, bds, -, bhs, -, bns, bsecs, -, -, b3, b2, b1, b0, -⟩ := hbytes
  have hdig : ∀ l : List Nat, (∀ ch ∈ l, ch < 256) → (∀ ch ∈ l, digit_of ch ≤ 9) →
      ∀ ch ∈ l, is_digit ch :=
    fun l hl hd ch hch => is_digit_of_digit_of ch (hl ch hch) (hd ch hch)
  refine ⟨⟨neg, ys, ms, ds, ws, hs, ns, secs, bs, sg, o3, o2, o1, o0, q0.2⟩, ?_, htext.symm⟩
  refine ⟨hys0, hdig ys bys hys, hdig ms bms hms, hdig ds bds hds, hws, hdig hs bhs hhs,
    hdig ns bns hns, ?_, hbs, hsg, is_digit_of_digit_of o3 b3 ho3,
    is_digit_of_digit_of o2 b2 ho2, is_digit_of_digit_of o1 b1 ho1,
    is_digit_of_digit_of o0 b0 ho0⟩
  intro ss hss
  simp only at hss
  refine hdig ss ?_ (hsecs ss hss)
  intro ch hch
  exact bsecs ch (by rw [hss]; simp [secs_text, hch])

/-- Well-formed parts can be regrouped, with the same text, so that the digits
of the day are not followed directly by those of the hour. -/
theorem iso_parts_regroup (p : iso_parts) (hwf : p.wf) :
    ∃ p1 : iso_parts, p1.wf ∧ (p1.ws = [] → p1.hs = []) ∧ p1.text = p.text ∧
      p1.ms = p.ms ∧ p1.ns = p.ns ∧ p1.secs = p.secs ∧ p1.sg = p.sg ∧ p1.o3 = p.o3 ∧
      p1.o2 = p.o2 ∧ p1.o1 = p.o1 ∧ p1.o0 = p.o0 := by
  by_cases hws : p.ws = []
  · obtain ⟨h1, h2, h3, h4, h5, h6, h7, h8⟩ := hwf
    refine ⟨{ p with ds := p.ds ++ p.hs, hs := [] }, ⟨h1, h2, h3, ?_, h5, ?_, h7, h8⟩,
      fun _ => rfl, ?_, rfl, rfl, rfl, rfl, rfl, rfl, rfl, rfl⟩
    · intro ch hch
      rcases List.mem_append.1 hch with h | h
      · exact h4 ch h
      · exact h6 ch h
    · intro ch hch
      simp at hch
    · simp [iso_parts.text, hws]
  · exact ⟨p, hwf, fun h => absurd h hws, rfl, rfl, rfl, rfl, rfl, rfl, rfl, rfl, rfl⟩

/-- On a text made of well-formed parts `cal_parse` succeeds; the month, the
minute, the seconds and the offset it stores are those of the parts. -/
theorem cal_parse_wf (p : iso_parts) (hwf : p.wf) :
    ∃ r : cal_datetime_t, cal_parse p.text = some r ∧
      r.mon = to_long (scan_digits p.ms 0).1 ∧ r.min = to_long (scan_digits p.ns 0).1 ∧
      r.sec = secs_value p.secs ∧
      r.off = (if p.sg = 43 then 1 else -1) *
        (((10 * (p.o3 - 48) + (p.o2 - 48)) * 60 + (10 * (p.o1 - 48) + (p.o0 - 48)) : Nat) :
          Int) := by
  obtain ⟨p1, hwf1, hc, ht, e1, e2, e3, e4, e5, e6, e7, e8⟩ := iso_parts_regroup p hwf
  refine ⟨_, ht ▸ cal_parse_parts p1 hwf1 hc, ?_, ?_, ?_, ?_⟩
  · simp only [e1]
  · simp only [e2]
  · simp only [e3]
  · simp only [e4, e5, e6, e7, e8]

/-! ## ISO text: claims C14, C15, C16 -/

/-- C14: for every text, `cal_parse` fails exactly when the text is not made
of parts `[-] digits - digits - digits [blanks or T] digits : digits
[: digits] [blanks] sign d d d d`, read from left to right, that is when a
separator is missing, the sign is neither `'+'` nor `'-'` or an offset
position holds no digit; no magnitude makes it fail (month `13` and day `99`
are accepted); and without `:SS` the seconds stored are `0`. -/
theorem C14_parse_fails_iff (s : List Nat) (hbytes : ∀ ch ∈ s, ch < 256) :
    (cal_parse s = none ↔ ¬ ∃ p : iso_parts, p.wf ∧ p.text = s) ∧
    (∀ p : iso_parts, p.wf → p.text = s → p.secs = none →
      ∃ r : cal_datetime_t, cal_parse s = some r ∧ r.sec = 0) ∧
    cal_parse [50, 48, 49, 49, 45, 49, 51, 45, 57, 57, 32, 49, 48, 58, 48, 48, 32, 43,
        48, 48, 48, 48] = some ⟨2011, 13, 99, 10, 0, 0, 0⟩ := by
  refine ⟨?_, ?_, by decide⟩
  · constructor
    · rintro hnone ⟨p, hwf, rfl⟩
      obtain ⟨r, hr, -⟩ := cal_parse_wf p hwf
      rw [hnone] at hr
      cases hr
    · intro hno
      cases hparse : cal_parse s with
      | none => rfl
      | some r => exact absurd (cal_parse_some_parts s hbytes r hparse) hno
  · rintro p hwf rfl hsecs
    obtain ⟨r, hr, -, -, hsec, -⟩ := cal_parse_wf p hwf
    exact ⟨r, hr, by rw [hsec, hsecs]; rfl⟩

/-- Witness of C14 on the text `2011-03-19T10:00 +0000`, without seconds. -/
theorem C14_parse_fails_iff_witness :
    (cal_parse [50, 48, 49, 49, 45, 48, 51, 45, 49, 57, 84, 49, 48, 58, 48, 48, 32, 43,
        48, 48, 48, 48] = none ↔
      ¬ ∃ p : iso_parts, p.wf ∧ p.text = [50, 48, 49, 49, 45, 48, 51, 45, 49, 57, 84, 49, 48,
        58, 48, 48, 32, 43, 48, 48, 48, 48]) ∧
    (∀ p : iso_parts, p.wf → p.text = [50, 48, 49, 49, 45, 48, 51, 45, 49, 57, 84, 49, 48,
        58, 48, 48, 32, 43, 48, 48, 48, 48] → p.secs = none →
      ∃ r : cal_datetime_t, cal_parse [50, 48, 49, 49, 45, 48, 51, 45, 49, 57, 84, 49, 48,
        58, 48, 48, 32, 43, 48, 48, 48, 48] = some r ∧ r.sec = 0) ∧
    cal_parse [50, 48, 49, 49, 45, 49, 51, 45, 57, 57, 32, 49, 48, 58, 48, 48, 32, 43,
        48, 48, 48, 48] = some ⟨2011, 13, 99, 10, 0, 0, 0⟩ :=
  C14_parse_fails_iff [50, 48, 49, 49, 45, 48, 51, 45, 49, 57, 84, 49, 48, 58, 48, 48, 32, 43,
    48, 48, 48, 48] (by decide)

/-- C15: for every text made of well-formed parts, hence accepted by
`cal_parse`, whose offset is written `sign a b c d`, the offset stored is
`s * ((10 a + b) * 60 + (10 c + d))` with `s = 1` for `'+'` and `s = -1` for
`'-'`: hours times sixty plus minutes, which is what the steps
`z * 10 + b`, `z * 6 + c`, `z * 10 + d` of the source compute. -/
theorem C15_offset_minutes (p : iso_parts) (hwf : p.wf) :
    ∃ r : cal_datetime_t, cal_parse p.text = some r ∧
      r.off = (if p.sg = 43 then 1 else -1) *
        (((10 * (p.o3 - 48) + (p.o2 - 48)) * 60 + (10 * (p.o1 - 48) + (p.o0 - 48)) : Nat) :
          Int) ∧
      (((p.o3 - 48) * 10 + (p.o2 - 48)) * 6 + (p.o1 - 48)) * 10 + (p.o0 - 48) =
        (10 * (p.o3 - 48) + (p.o2 - 48)) * 60 + (10 * (p.o1 - 48) + (p.o0 - 48)) := by
  obtain ⟨r, hr, -, -, -, hoff⟩ := cal_parse_wf p hwf
  exact ⟨r, hr, hoff, by omega⟩

/-- Witness of C15 on the text `2011-03-19T10:00:00 -0130`: the offset is `-90`. -/
theorem C15_offset_minutes_witness :
    ∃ r : cal_datetime_t,
      cal_parse (iso_parts.text ⟨false, [50, 48, 49, 49], [48, 51], [49, 57], [84], [49, 48],
        [48, 48], some [48, 48], [32], 45, 48, 49, 51, 48, []⟩) = some r ∧
      r.off = (if (45 : Nat) = 43 then 1 else -1) *
        (((10 * (48 - 48) + (49 - 48)) * 60 + (10 * (51 - 48) + (48 - 48)) : Nat) : Int) ∧
      (((48 - 48) * 10 + (49 - 48)) * 6 + (51 - 48)) * 10 + (48 - 48) =
        (10 * (48 - 48) + (49 - 48)) * 60 + (10 * (51 - 48) + (48 - 48)) :=
  C15_offset_minutes ⟨false, [50, 48, 49, 49], [48, 51], [49, 57], [84], [49, 48],
    [48, 48], some [48, 48], [32], 45, 48, 49, 51, 48, []⟩
    (by simp [iso_parts.wf, is_digit])

/-! ## ISO text: parsing then formatting, claim C16 -/

/-- One `'T'` or one space between the date and the hour is skipped. -/
theorem skip_date_sep_one (sep a : Nat) (hsep : sep = 84 ∨ sep = 32) (ha : a ≤ 9)
    (t : List Nat) : skip_date_sep (sep :: (48 + a) :: t) = (48 + a) :: t := by
  rw [skip_date_sep, if_pos (by omega), skip_date_sep, if_neg (by omega)]

/-- The digit loop stops on `'T'`. -/
theorem scan_digits_T (t : List Nat) (z : Nat) :
    scan_digits (84 :: t) z = (z, 84 :: t) := scan_digits_stop 84 (by decide) t z

/-- The record `cal_parse` reads from a text of the fixed-width shape
`YYYY-MM-DD`, `'T'` or space, `HH:MM:SS`, space, sign, `HHMM`. -/
theorem parse_fixed (y3 y2 y1 y0 m1 m0 d1 d0 h1 h0 n1 n0 s1 s0 o3 o2 o1 o0 : Nat)
    (hy3 : y3 ≤ 9) (hy2 : y2 ≤ 9) (hy1 : y1 ≤ 9) (hy0 : y0 ≤ 9)
    (hm1 : m1 ≤ 9) (hm0 : m0 ≤ 9) (hd1 : d1 ≤ 9) (hd0 : d0 ≤ 9)
    (hh1 : h1 ≤ 9) (hh0 : h0 ≤ 9) (hn1 : n1 ≤ 9) (hn0 : n0 ≤ 9)
    (hs1 : s1 ≤ 9) (hs0 : s0 ≤ 9)
    (ho3 : o3 ≤ 9) (ho2 : o2 ≤ 9) (ho1 : o1 ≤ 9) (ho0 : o0 ≤ 9) (neg : Bool)
    (sep : Nat) (hsep : sep = 84 ∨ sep = 32) :
    cal_parse [48 + y3, 48 + y2, 48 + y1, 48 + y0, 45, 48 + m1, 48 + m0, 45,
               48 + d1, 48 + d0, sep, 48 + h1, 48 + h0, 58, 48 + n1, 48 + n0, 58,
               48 + s1, 48 + s0, 32, (if neg then 45 else 43),
               48 + o3, 48 + o2, 48 + o1, 48 + o0] =
      some { year := ((y3 * 1000 + y2 * 100 + y1 * 10 + y0 : Nat) : Int),
             mon := ((m1 * 10 + m0 : Nat) : Int),
             day := ((d1 * 10 + d0 : Nat) : Int),
             hour := ((h1 * 10 + h0 : Nat) : Int),
             min := ((n1 * 10 + n0 : Nat) : Int),
             sec := ((s1 * 10 + s0 : Nat) : Int),
             off := if neg then -(((o3 * 10 + o2) * 60 + (o1 * 10 + o0) : Nat) : Int)
               else (((o3 * 10 + o2) * 60 + (o1 * 10 + o0) : Nat) : Int) } := by
  have hsk := skip_date_sep_one sep h1 hsep hh1
  have hsd : ∀ (t : List Nat) (z : Nat), scan_digits (sep :: t) z = (z, sep :: t) := by
    rcases hsep with rfl | rfl
    · exact scan_digits_T
    · exact scan_digits_space
  cases neg
  · simp only [cal_parse, year_sign_digit, opt_seconds_colon, scan_digits_digit,
      scan_digits_minus, scan_digits_colon, scan_digits_space, hsd, offset_digit_digit,
      expect_char_same, hsk, skip_blank_space, offset_sign,
      hy3, hy2, hy1, hy0, hm1, hm0, hd1, hd0, hh1, hh0, hn1, hn0, hs1, hs0, ho3, ho2, ho1, ho0,
      Option.some_bind, Option.bind_eq_bind, Option.pure_def, Bool.false_eq_true, if_false,
      if_true, ne_eq, not_false_eq_true, reduceCtorEq, Nat.reduceEqDiff, to_ulong_one,
      Option.some.injEq, cal_datetime_t.mk.injEq]
    simp (disch := omega) only [u64_small, to_long_small]
    refine ⟨?_, ?_, ?_, ?_, ?_, ?_, ?_⟩ <;> omega
  · simp only [cal_parse, year_sign_digit, opt_seconds_colon, scan_digits_digit,
      scan_digits_minus, scan_digits_colon, scan_digits_space, hsd, offset_digit_digit,
      expect_char_same, hsk, skip_blank_space, offset_sign,
      hy3, hy2, hy1, hy0, hm1, hm0, hd1, hd0, hh1, hh0, hn1, hn0, hs1, hs0, ho3, ho2, ho1, ho0,
      Option.some_bind, Option.bind_eq_bind, Option.pure_def, Bool.false_eq_true, if_false,
      if_true, ne_eq, not_false_eq_true, reduceCtorEq, Nat.reduceEqDiff, to_ulong_one,
      to_ulong_neg_one, Option.some.injEq, cal_datetime_t.mk.injEq]
    simp (disch := omega) only [u64_small, to_long_small, to_long_neg]
    refine ⟨?_, ?_, ?_, ?_, ?_, ?_, ?_⟩ <;> omega

/-- C16: for every text of the fixed-width shape `YYYY-MM-DD`, one `'T'` or
space, `HH:MM:SS`, one space, a sign and four offset digits `HHMM` with
`MM < 60`, other than the offset `-0000`, `cal_parse` succeeds and
`cal_format` of its result is the same text with the separator replaced by a
space (and then the terminator). -/
theorem C16_format_parse (y3 y2 y1 y0 m1 m0 d1 d0 h1 h0 n1 n0 s1 s0 o3 o2 o1 o0 : Nat)
    (hy3 : y3 ≤ 9) (hy2 : y2 ≤ 9) (hy1 : y1 ≤ 9) (hy0 : y0 ≤ 9)
    (hm1 : m1 ≤ 9) (hm0 : m0 ≤ 9) (hd1 : d1 ≤ 9) (hd0 : d0 ≤ 9)
    (hh1 : h1 ≤ 9) (hh0 : h0 ≤ 9) (hn1 : n1 ≤ 9) (hn0 : n0 ≤ 9)
    (hs1 : s1 ≤ 9) (hs0 : s0 ≤ 9)
    (ho3 : o3 ≤ 9) (ho2 : o2 ≤ 9) (ho1 : o1 ≤ 9) (ho0 : o0 ≤ 9) (neg : Bool)
    (sep : Nat) (hsep : sep = 84 ∨ sep = 32) (hmm : o1 * 10 + o0 < 60)
    (hnz : neg = true → 0 < o3 + o2 + o1 + o0) :
    ∃ r : cal_datetime_t,
      cal_parse [48 + y3, 48 + y2, 48 + y1, 48 + y0, 45, 48 + m1, 48 + m0, 45,
                 48 + d1, 48 + d0, sep, 48 + h1, 48 + h0, 58, 48 + n1, 48 + n0, 58,
                 48 + s1, 48 + s0, 32, (if neg then 45 else 43),
                 48 + o3, 48 + o2, 48 + o1, 48 + o0] = some r ∧
      cal_format r =
        [48 + y3, 48 + y2, 48 + y1, 48 + y0, 45, 48 + m1, 48 + m0, 45,
         48 + d1, 48 + d0, 32, 48 + h1, 48 + h0, 58, 48 + n1, 48 + n0, 58,
         48 + s1, 48 + s0, 32, (if neg then 45 else 43),
         48 + o3, 48 + o2, 48 + o1, 48 + o0] ++ [0] := by
  refine ⟨_, parse_fixed y3 y2 y1 y0 m1 m0 d1 d0 h1 h0 n1 n0 s1 s0 o3 o2 o1 o0 hy3 hy2 hy1 hy0
    hm1 hm0 hd1 hd0 hh1 hh0 hn1 hn0 hs1 hs0 ho3 ho2 ho1 ho0 neg sep hsep, ?_⟩
  rw [format_nonneg (y3 * 1000 + y2 * 100 + y1 * 10 + y0) (m1 * 10 + m0) (d1 * 10 + d0)
    (h1 * 10 + h0) (n1 * 10 + n0) (s1 * 10 + s0) ((o3 * 10 + o2) * 60 + (o1 * 10 + o0))
    (by omega) (by omega) (by omega) (by omega) (by omega) (by omega) (by omega) neg]
  have hsign : (if neg = true ∧ 0 < (o3 * 10 + o2) * 60 + (o1 * 10 + o0) then 45 else 43) =
      (if neg = true then 45 else 43) := by
    cases neg
    · simp
    · have := hnz rfl
      rw [if_pos ⟨rfl, by omega⟩, if_pos rfl]
  rw [hsign]
  simp only [List.cons_append, List.nil_append, List.cons.injEq, and_true]
  and_intros <;> first | trivial | omega

/-- Witness of C16: parsing `2011-03-19T10:00:00 +0000` and formatting gives
`2011-03-19 10:00:00 +0000`. -/
theorem C16_format_parse_witness :
    ∃ r : cal_datetime_t,
      cal_parse [48 + 2, 48 + 0, 48 + 1, 48 + 1, 45, 48 + 0, 48 + 3, 45,
                 48 + 1, 48 + 9, 84, 48 + 1, 48 + 0, 58, 48 + 0, 48 + 0, 58,
                 48 + 0, 48 + 0, 32, (if false then 45 else 43),
                 48 + 0, 48 + 0, 48 + 0, 48 + 0] = some r ∧
      cal_format r =
        [48 + 2, 48 + 0, 48 + 1, 48 + 1, 45, 48 + 0, 48 + 3, 45,
         48 + 1, 48 + 9, 32, 48 + 1, 48 + 0, 58, 48 + 0, 48 + 0, 58,
         48 + 0, 48 + 0, 32, (if false then 45 else 43),
         48 + 0, 48 + 0, 48 + 0, 48 + 0] ++ [0] :=
  C16_format_parse 2 0 1 1 0 3 1 9 1 0 0 0 0 0 0 0 0 0 (by decide) (by decide) (by decide)
    (by decide) (by decide) (by decide) (by decide) (by decide) (by decide) (by decide)
    (by decide) (by decide) (by decide) (by decide) (by decide) (by decide) (by decide)
    (by decide) false 84 (Or.inl rfl) (by decide) (by simp)

/-! ## ISO text: the buffer written by `cal_format`, claims C17, C18 -/

/-- C17 fails for every record: `cal_format` stores 26 bytes, `buf[0]` to
`buf[25]`; the terminator is at index `25`, one past a buffer of
`CAL_ISOFMT_LEN = 25` bytes, and index `24` holds the last offset digit (the
byte `'0'` for `2011-03-19 10:00:00 +0000`). -/
theorem C17_format_writes_26 (t : cal_datetime_t) :
    (cal_format t).length = 26 ∧ (cal_format t)[25]? = some 0 ∧
    (cal_format ⟨2011, 3, 19, 10, 0, 0, 0⟩)[24]? = some 48 := by
  refine ⟨by simp [cal_format], by simp [cal_format], by decide⟩

/-- C18, as stated, fails above `9999`: for the year `12345` the four year
bytes are `60, 51, 52, 53`, the text `<345`, and not `2345`. -/
theorem C18_year_counterexample :
    (cal_format ⟨12345, 1, 1, 0, 0, 0, 0⟩).take 4 = [60, 51, 52, 53] ∧
    (cal_format ⟨12345, 1, 1, 0, 0, 0, 0⟩)[0]? ≠ some (48 + 12345 / 1000 % 10) ∧
    ¬ (48 ≤ 60 ∧ 60 ≤ 57) := by
  decide

/-- C18, amended: for every record with year `≥ 0`, also above `9999`, the
hundreds, tens and units characters written by `cal_format` are the ASCII
digits `(year / 100) mod 10`, `(year / 10) mod 10` and `year mod 10`; the
thousands character is the byte `(year / 1000 + '0') mod 256`, not reduced
modulo `10`, which is the ASCII digit `year / 1000` when `year ≤ 9999`. -/
theorem C18_year_digits (t : cal_datetime_t) (hy : 0 ≤ t.year) :
    (cal_format t)[0]? = some ((t.year.toNat / 1000 + 48) % 256) ∧
    (cal_format t)[1]? = some (48 + t.year.toNat / 100 % 10) ∧
    (cal_format t)[2]? = some (48 + t.year.toNat / 10 % 10) ∧
    (cal_format t)[3]? = some (48 + t.year.toNat % 10) ∧
    (t.year ≤ 9999 → (cal_format t)[0]? = some (48 + t.year.toNat / 1000) ∧
      t.year.toNat / 1000 ≤ 9) := by
  obtain ⟨y, hyy⟩ := Int.eq_ofNat_of_zero_le hy
  have h0 : (cal_format t)[0]? = some ((t.year.toNat / 1000 + 48) % 256) := by
    simp only [cal_format, hyy, tdiv_natCast_1000, char_of_long, List.getElem?_cons_zero,
      Int.toNat_ofNat, Option.some.injEq]
    omega
  refine ⟨h0, ?_, ?_, ?_, ?_⟩
  · simp (disch := omega) only [cal_format, hyy, tdiv_natCast_100, tmod_natCast_10,
      char_of_long_digit, List.getElem?_cons_succ, List.getElem?_cons_zero, Int.toNat_ofNat]
  · simp (disch := omega) only [cal_format, hyy, tdiv_natCast_10, tmod_natCast_10,
      char_of_long_digit, List.getElem?_cons_succ, List.getElem?_cons_zero, Int.toNat_ofNat]
  · simp (disch := omega) only [cal_format, hyy, tmod_natCast_10,
      char_of_long_digit, List.getElem?_cons_succ, List.getElem?_cons_zero, Int.toNat_ofNat]
  · intro hle
    rw [h0, hyy] at *
    simp only [Int.toNat_ofNat, Option.some.injEq]
    omega

/-- Witness of the amended C18 at the year `12345`. -/
theorem C18_year_digits_witness :
    (cal_format ⟨12345, 1, 1, 0, 0, 0, 0⟩)[0]? = some (((12345 : Int).toNat / 1000 + 48) % 256) ∧
    (cal_format ⟨12345, 1, 1, 0, 0, 0, 0⟩)[1]? = some (48 + (12345 : Int).toNat / 100 % 10) ∧
    (cal_format ⟨12345, 1, 1, 0, 0, 0, 0⟩)[2]? = some (48 + (12345 : Int).toNat / 10 % 10) ∧
    (cal_format ⟨12345, 1, 1, 0, 0, 0, 0⟩)[3]? = some (48 + (12345 : Int).toNat % 10) ∧
    ((12345 : Int) ≤ 9999 →
      (cal_format ⟨12345, 1, 1, 0, 0, 0, 0⟩)[0]? = some (48 + (12345 : Int).toNat / 1000) ∧
      (12345 : Int).toNat / 1000 ≤ 9) :=
  C18_year_digits ⟨12345, 1, 1, 0, 0, 0, 0⟩ (by decide)

/-! ## Leap seconds: the loader, claim C19 -/

/-- With an empty table and a loader that fails, `cal_leapsecs_init` returns
`-1` and leaves the table empty. -/
theorem cal_leapsecs_init_fails (file : Option (Option (List Nat))) (st : cal_leapsecs_s)
    (hempty : st.list = []) (hfail : file = none ∨ file = some none) :
    cal_leapsecs_init file st = (-1, st) := by
  have h0 : ¬ st.count ≠ 0 := by simp [cal_leapsecs_s.count, hempty]
  rcases hfail with rfl | rfl <;> simp [cal_leapsecs_init, cal_leapsecs_load, h0]

/-- C19: with the table as explicit state and the loader as an input that may
fail, whenever the table is empty and loading fails (the file cannot be
opened, or it cannot be read) each of `cal_leapsecs_sub`, `cal_leapsecs_add`,
`cal_isleapsec` and `cal_leapsecs_get` returns `-1`, `sub` and `add` leave the
instant unchanged and the table stays empty; and whenever the table is not
empty the four results are the same for every loader and the table is
unchanged. -/
theorem C19_loader (file0 file file1 : Option (Option (List Nat))) (st0 st : cal_leapsecs_s)
    (tai : Nat) (hempty : st0.list = []) (hfail : file0 = none ∨ file0 = some none)
    (hloaded : st.list ≠ []) :
    (cal_leapsecs_sub file0 st0 tai = (-1, tai, st0) ∧
      cal_leapsecs_add file0 st0 tai = (-1, tai, st0) ∧
      cal_isleapsec file0 st0 tai = (-1, st0) ∧
      cal_leapsecs_get file0 st0 tai = (-1, st0)) ∧
    (cal_leapsecs_sub file st tai = cal_leapsecs_sub file1 st tai ∧
      cal_leapsecs_add file st tai = cal_leapsecs_add file1 st tai ∧
      cal_isleapsec file st tai = cal_isleapsec file1 st tai ∧
      cal_leapsecs_get file st tai = cal_leapsecs_get file1 st tai ∧
      (cal_leapsecs_sub file st tai).2.2 = st ∧ (cal_leapsecs_add file st tai).2.2 = st ∧
      (cal_isleapsec file st tai).2 = st ∧ (cal_leapsecs_get file st tai).2 = st) := by
  have hf := cal_leapsecs_init_fails file0 st0 hempty hfail
  have h1 := cal_leapsecs_init_loaded file st hloaded
  have h2 := cal_leapsecs_init_loaded file1 st hloaded
  have hn := count_ne_neg_one st
  refine ⟨⟨?_, ?_, ?_, ?_⟩, ?_, ?_, ?_, ?_, ?_, ?_, ?_, ?_⟩
  · simp [cal_leapsecs_sub, hf]
  · simp [cal_leapsecs_add, hf]
  · simp [cal_isleapsec, hf]
  · simp [cal_leapsecs_get, hf]
  · simp only [cal_leapsecs_sub, h1, h2]
  · simp only [cal_leapsecs_add, h1, h2]
  · simp only [cal_isleapsec, h1, h2]
  · simp only [cal_leapsecs_get, h1, h2]
  · simp only [cal_leapsecs_sub, h1, if_neg hn]
  · simp only [cal_leapsecs_add, h1, if_neg hn]
  · simp only [cal_isleapsec, h1, if_neg hn]
  · simp only [cal_leapsecs_get, h1, if_neg hn]

/-- Witness of C19: the empty table with a file that cannot be opened, and the
table `[100, 200, 300]` with two different loaders. -/
theorem C19_loader_witness :
    (cal_leapsecs_sub none ⟨[]⟩ 250 = (-1, 250, ⟨[]⟩) ∧
      cal_leapsecs_add none ⟨[]⟩ 250 = (-1, 250, ⟨[]⟩) ∧
      cal_isleapsec none ⟨[]⟩ 250 = (-1, ⟨[]⟩) ∧
      cal_leapsecs_get none ⟨[]⟩ 250 = (-1, ⟨[]⟩)) ∧
    (cal_leapsecs_sub none ⟨[100, 200, 300]⟩ 250 =
        cal_leapsecs_sub (some (some [0, 0, 0, 0, 0, 0, 0, 7])) ⟨[100, 200, 300]⟩ 250 ∧
      cal_leapsecs_add none ⟨[100, 200, 300]⟩ 250 =
        cal_leapsecs_add (some (some [0, 0, 0, 0, 0, 0, 0, 7])) ⟨[100, 200, 300]⟩ 250 ∧
      cal_isleapsec none ⟨[100, 200, 300]⟩ 250 =
        cal_isleapsec (some (some [0, 0, 0, 0, 0, 0, 0, 7])) ⟨[100, 200, 300]⟩ 250 ∧
      cal_leapsecs_get none ⟨[100, 200, 300]⟩ 250 =
        cal_leapsecs_get (some (some [0, 0, 0, 0, 0, 0, 0, 7])) ⟨[100, 200, 300]⟩ 250 ∧
      (cal_leapsecs_sub none ⟨[100, 200, 300]⟩ 250).2.2 = ⟨[100, 200, 300]⟩ ∧
      (cal_leapsecs_add none ⟨[100, 200, 300]⟩ 250).2.2 = ⟨[100, 200, 300]⟩ ∧
      (cal_isleapsec none ⟨[100, 200, 300]⟩ 250).2 = ⟨[100, 200, 300]⟩ ∧
      (cal_leapsecs_get none ⟨[100, 200, 300]⟩ 250).2 = ⟨[100, 200, 300]⟩) :=
  C19_loader none none (some (some [0, 0, 0, 0, 0, 0, 0, 7])) ⟨[]⟩ ⟨[100, 200, 300]⟩ 250 rfl
    (Or.inl rfl) (by decide)

/-! ## Machine arithmetic outside the exact range: basic facts -/

/-- A value within the range of `long` is kept. -/
theorem wrap_long_small (i : Int) (h0 : -9223372036854775808 ≤ i)
    (h1 : i ≤ 9223372036854775807) : wrap_long i = i := by
  unfold wrap_long
  norm_num
  omega

/-- Every wrapped value is a `long`. -/
theorem wrap_long_range (i : Int) :
    -9223372036854775808 ≤ wrap_long i ∧ wrap_long i ≤ 9223372036854775807 := by
  unfold wrap_long
  norm_num
  omega

/-- An integer of magnitude below `2 ^ 53` is converted to `double` exactly. -/
theorem double_of_long_exact (d : Int) (h0 : -9007199254740992 < d)
    (h1 : d < 9007199254740992) : double_of_long d = d := by
  have ha : d.natAbs < 2 ^ (53 + 0) := by norm_num; omega
  have he : excess_bits 11 d.natAbs 0 = 0 := by
    rw [excess_bits, if_pos ha]
  unfold double_of_long
  simp only [he, pow_zero, Nat.div_one, Nat.mod_one, mul_zero, mul_one]
  have hq : ¬ (1 < 0 ∨ 1 = 0 ∧ d.natAbs % 2 = 1) := by omega
  rw [if_neg hq]
  split <;> omega

/-! ## Modified Julian Date: the day count in 64 bits -/

/-- Quotient and remainder of C's division by `12`. -/
theorem tdiv_tmod_12 (a : Int) :
    a = 12 * Int.tdiv a 12 + Int.tmod a 12 ∧ -12 < Int.tmod a 12 ∧ Int.tmod a 12 < 12 := by
  have hm := Int.tmod_def a 12
  have hd := tdiv_eq_ite a 12 (by norm_num)
  split at hd <;> omega

/-- The three table indexes of `cal_mjd` are in range for every record:
the month index in `0..11`, both cycle indexes in `0..3`. -/
theorem cal_mjd_indexes_range (t : cal_datetime_t) :
    (0 ≤ (cal_mjd_indexes t).1 ∧ (cal_mjd_indexes t).1 ≤ 11) ∧
    (0 ≤ (cal_mjd_indexes t).2.1 ∧ (cal_mjd_indexes t).2.1 ≤ 3) ∧
    (0 ≤ (cal_mjd_indexes t).2.2 ∧ (cal_mjd_indexes t).2.2 ≤ 3) := by
  unfold cal_mjd_indexes
  lift_lets
  extract_lets m y y1 y2 m2 y3 m3 y4 m4 i1 y5 y6 i2 y7 y8 i3
  have em3 : m3 = Int.tmod m2 12 := rfl
  have em4 : m4 = if m3 < 0 then wrap_long (m3 + 12) else m3 := rfl
  have ei1 : i1 = m4 := rfl
  have ey5 : y5 = Int.tmod y4 400 := rfl
  have ey6 : y6 = if y5 < 0 then wrap_long (y5 + 400) else y5 := rfl
  have ei2 : i2 = Int.land y6 3 := rfl
  have ey7 : y7 = y6 / 4 := shr_2 y6
  have ey8 : y8 = Int.tdiv y7 25 := rfl
  have ei3 : i3 = Int.land y8 3 := rfl
  clear_value i3 y8 y7 i2 y6 y5 i1 m4 y4 m3 y3 m2 y2 y1 y m
  obtain ⟨f2, f2a, f2b⟩ := tdiv_tmod_12 m2
  obtain ⟨f3, f3a, f3b⟩ := tdiv_tmod_400 y4
  have hm4 : 0 ≤ m4 ∧ m4 < 12 := by
    rw [em4]; split_ifs
    · rw [wrap_long_small _ (by omega) (by omega)]; omega
    · omega
  have hy6 : 0 ≤ y6 ∧ y6 < 400 := by
    rw [ey6]; split_ifs
    · rw [wrap_long_small _ (by omega) (by omega)]; omega
    · omega
  rw [Int.tdiv_eq_ediv (by omega) (by norm_num)] at ey8
  rw [land_3 y6 hy6.1] at ei2
  rw [land_3 y8 (by omega)] at ei3
  show (0 ≤ i1 ∧ i1 ≤ 11) ∧ (0 ≤ i2 ∧ i2 ≤ 3) ∧ (0 ≤ i3 ∧ i3 ≤ 3)
  omega

/-- The wrapped day count is defined for every record, and it is a `long`. -/
theorem cal_mjd_days_wrap_defined (t : cal_datetime_t) :
    ∃ d : Int, cal_mjd_days_wrap t = some d ∧
      -9223372036854775808 ≤ d ∧ d ≤ 9223372036854775807 := by
  unfold cal_mjd_days_wrap
  lift_lets
  extract_lets d m y d1 y1 y2 m2 y3 m3 y4 m4 y5 y6 y7 y8
  have em3 : m3 = Int.tmod m2 12 := rfl
  have em4 : m4 = if m3 < 0 then wrap_long (m3 + 12) else m3 := rfl
  have ey5 : y5 = Int.tmod y4 400 := rfl
  have ey6 : y6 = if y5 < 0 then wrap_long (y5 + 400) else y5 := rfl
  have ey7 : y7 = y6 / 4 := shr_2 y6
  have ey8 : y8 = Int.tdiv y7 25 := rfl
  clear_value y8 y7 y6 y5 m4 y4 m3 y3 m2 y2 y1 d1 y m d
  obtain ⟨f2, f2a, f2b⟩ := tdiv_tmod_12 m2
  obtain ⟨f3, f3a, f3b⟩ := tdiv_tmod_400 y4
  have hm4 : 0 ≤ m4 ∧ m4 < 12 := by
    rw [em4]; split_ifs
    · rw [wrap_long_small _ (by omega) (by omega)]; omega
    · omega
  have hy6 : 0 ≤ y6 ∧ y6 < 400 := by
    rw [ey6]; split_ifs
    · rw [wrap_long_small _ (by omega) (by omega)]; omega
    · omega
  rw [Int.tdiv_eq_ediv (by omega) (by norm_num)] at ey8
  rw [table_montab m4 hm4.1 hm4.2, land_3 y6 hy6.1, land_3 y8 (by omega),
    table_times365 _ (by omega) (by omega), table_times36524 _ (by omega) (by omega)]
  simp only [Option.bind_eq_bind, Option.some_bind, Option.pure_def]
  exact ⟨_, rfl, wrap_long_range _⟩


/-- The day count of `cal_mjd` in closed form, for every month: the
floor-division count of the year `year + ⌊(mon - 3) / 12⌋` and of the month
`(mon - 3) mod 12` counted from March. -/
theorem cal_mjd_days_closed (t : cal_datetime_t) :
    cal_mjd_days t =
      some (365 * (t.year + (t.mon - 3) / 12) + (t.year + (t.mon - 3) / 12) / 4 -
        (t.year + (t.mon - 3) / 12) / 100 + (t.year + (t.mon - 3) / 12) / 400 +
        (306 * ((t.mon - 3) % 12) + 5) / 10 + t.day - 678882) := by
  unfold cal_mjd_days
  lift_lets
  extract_lets d m y d1 y1 y2 m2 y3 m3 y4 m4 y5 y6 y7 y8
  have ed : d = t.day - 678882 := rfl
  have em : m = t.mon - 1 := rfl
  have ey : y = t.year := rfl
  have ed1 : d1 = d + 146097 * Int.tdiv y 400 := rfl
  have ey1 : y1 = Int.tmod y 400 := rfl
  have ey2 : y2 = if m ≥ 2 then y1 else y1 - 1 := rfl
  have em2 : m2 = if m ≥ 2 then m - 2 else m + 10 := rfl
  have ey3 : y3 = y2 + Int.tdiv m2 12 := rfl
  have em3 : m3 = Int.tmod m2 12 := rfl
  have ey4 : y4 = if m3 < 0 then y3 - 1 else y3 := rfl
  have em4 : m4 = if m3 < 0 then m3 + 12 else m3 := rfl
  have ey5 : y5 = Int.tmod y4 400 := rfl
  have ey6 : y6 = if y5 < 0 then y5 + 400 else y5 := rfl
  have ey7 : y7 = y6 / 4 := shr_2 y6
  have ey8 : y8 = Int.tdiv y7 25 := rfl
  clear_value y8 y7 y6 y5 m4 y4 m3 y3 m2 y2 y1 d1 y m d
  obtain ⟨f1, f1a, f1b⟩ := tdiv_tmod_400 y
  obtain ⟨f2, f2a, f2b⟩ := tdiv_tmod_12 m2
  obtain ⟨f3, f3a, f3b⟩ := tdiv_tmod_400 y4
  have hm4 : 0 ≤ m4 ∧ m4 < 12 := by rw [em4]; split_ifs <;> omega
  have h12 : 12 * y2 + m2 = 12 * y1 + (t.mon - 3) := by
    rw [ey2, em2]; split_ifs <;> omega
  have h23 : 12 * y3 + m3 = 12 * y2 + m2 := by rw [ey3, em3]; omega
  have h34 : 12 * y4 + m4 = 12 * y3 + m3 := by rw [ey4, em4]; split_ifs <;> omega
  have hM : m4 = (t.mon - 3) % 12 := by omega
  have hY4 : y4 = y1 + (t.mon - 3) / 12 := by omega
  have hy6 : 0 ≤ y6 ∧ y6 < 400 := by rw [ey6]; split_ifs <;> omega
  rw [Int.tdiv_eq_ediv (by omega) (by norm_num)] at ey8
  have hmod : Int.tmod y7 25 = y7 % 25 := Int.tmod_eq_emod (by omega) (by norm_num)
  rw [table_montab m4 hm4.1 hm4.2, land_3 y6 hy6.1, land_3 y8 (by omega),
    table_times365 _ (by omega) (by omega), table_times36524 _ (by omega) (by omega)]
  simp only [Option.bind_eq_bind, Option.some_bind, Option.pure_def, Option.some.injEq]
  rw [hmod]
  have key := cycle_formula (Int.tdiv y 400 + Int.tdiv y4 400 - (if y5 < 0 then 1 else 0)) y6
    (t.year + (t.mon - 3) / 12) hy6.1 hy6.2
    (by rw [ey6]; split_ifs at * <;> omega)
  rw [key, ey8, ey7, hM, ed1, ed]
  split_ifs <;> omega

/-- The additions of the month offset and of the 400-year cycles to `d` stay
within 64 bits when `d` and the quotient `q` are of moderate size. -/
theorem wrap_long_sums (d1 c1 q : Int)
    (hd1 : -1000000000000000000 ≤ d1 ∧ d1 ≤ 1000000000000000000)
    (hc1 : 0 ≤ c1 ∧ c1 ≤ 337) (hq : -1000000000000 ≤ q ∧ q ≤ 1000000000000) :
    wrap_long (wrap_long (d1 + c1) + wrap_long (146097 * q)) = d1 + c1 + 146097 * q := by
  rw [wrap_long_small (d1 + c1) (by omega) (by omega),
    wrap_long_small (146097 * q) (by omega) (by omega),
    wrap_long_small (d1 + c1 + 146097 * q) (by omega) (by omega)]

/-- The additions of the three cycle terms to `d` stay within 64 bits when `d`
is of moderate size. -/
theorem wrap_long_cycles (d c6 c7 c8 : Int)
    (hd : -2000000000000000000 ≤ d ∧ d ≤ 2000000000000000000)
    (hc6 : 0 ≤ c6 ∧ c6 < 4) (hc7 : 0 ≤ c7 ∧ c7 < 25) (hc8 : 0 ≤ c8 ∧ c8 < 4) :
    wrap_long (wrap_long (wrap_long (d + 365 * c6) + wrap_long (1461 * c7)) + 36524 * c8) =
      d + 365 * c6 + 1461 * c7 + 36524 * c8 := by
  rw [wrap_long_small (d + 365 * c6) (by omega) (by omega),
    wrap_long_small (1461 * c7) (by omega) (by omega),
    wrap_long_small (d + 365 * c6 + 1461 * c7) (by omega) (by omega),
    wrap_long_small (d + 365 * c6 + 1461 * c7 + 36524 * c8) (by omega) (by omega)]

/-- Folding the month into `0..11` and carrying into the year stays within 64
bits when the month is of moderate size: the wrapped statements compute the
exact values. -/
theorem wrap_long_fold (mon y1 m y2 m2 y3 m3 y4 m4 : Int)
    (hm : -1000000000000000 ≤ mon ∧ mon ≤ 1000000000000000)
    (hy1 : -400 < y1 ∧ y1 < 400)
    (em : m = wrap_long (mon - 1))
    (ey2 : y2 = if m ≥ 2 then y1 else wrap_long (y1 - 1))
    (em2 : m2 = if m ≥ 2 then wrap_long (m - 2) else wrap_long (m + 10))
    (ey3 : y3 = wrap_long (y2 + Int.tdiv m2 12))
    (em3 : m3 = Int.tmod m2 12)
    (ey4 : y4 = if m3 < 0 then wrap_long (y3 - 1) else y3)
    (em4 : m4 = if m3 < 0 then wrap_long (m3 + 12) else m3) :
    (0 ≤ m4 ∧ m4 < 12) ∧ m4 = (mon - 3) % 12 ∧ y4 = y1 + (mon - 3) / 12 := by
  obtain ⟨f2, f2a, f2b⟩ := tdiv_tmod_12 m2
  have em1 : m = mon - 1 := by rw [em, wrap_long_small (mon - 1) (by omega) (by omega)]
  have ey2a : y2 = if m ≥ 2 then y1 else y1 - 1 := by
    rw [ey2, wrap_long_small (y1 - 1) (by omega) (by omega)]
  have em2a : m2 = if m ≥ 2 then m - 2 else m + 10 := by
    rw [em2, wrap_long_small (m - 2) (by omega) (by omega),
      wrap_long_small (m + 10) (by omega) (by omega)]
  have hy2 : -401 ≤ y2 ∧ y2 ≤ 400 := by rw [ey2a]; split_ifs <;> omega
  have hm2 : -1000000000000010 ≤ m2 ∧ m2 ≤ 1000000000000010 := by
    rw [em2a]; split_ifs <;> omega
  have ey3a : y3 = y2 + Int.tdiv m2 12 := by
    rw [ey3, wrap_long_small (y2 + Int.tdiv m2 12) (by omega) (by omega)]
  have ey4a : y4 = if m3 < 0 then y3 - 1 else y3 := by
    rw [ey4, wrap_long_small (y3 - 1) (by omega) (by omega)]
  have em4a : m4 = if m3 < 0 then m3 + 12 else m3 := by
    rw [em4, wrap_long_small (m3 + 12) (by omega) (by omega)]
  have hm4 : 0 ≤ m4 ∧ m4 < 12 := by rw [em4a]; split_ifs <;> omega
  have h12 : 12 * y2 + m2 = 12 * y1 + (mon - 3) := by
    rw [ey2a, em2a]; split_ifs <;> omega
  have h23 : 12 * y3 + m3 = 12 * y2 + m2 := by rw [ey3a, em3]; omega
  have h34 : 12 * y4 + m4 = 12 * y3 + m3 := by rw [ey4a, em4a]; split_ifs <;> omega
  exact ⟨hm4, by omega, by omega⟩

/-- The 400-year cycle of the folded year, and the sum left in `d`, stay
within 64 bits when year, month and day are of moderate size. -/
theorem wrap_long_days (year Y day d1 y y4 y5 y6 y7 y8 c1 : Int)
    (hy : -1000000000000000 ≤ year ∧ year ≤ 1000000000000000)
    (hY : -100000000000000 ≤ Y - year ∧ Y - year ≤ 100000000000000)
    (hd : -1000000000000000 ≤ day ∧ day ≤ 1000000000000000)
    (hc1 : 0 ≤ c1 ∧ c1 ≤ 337)
    (ey : y = year)
    (ed1 : d1 = wrap_long (wrap_long (day - 678882) + wrap_long (146097 * Int.tdiv y 400)))
    (hY4 : y4 = Int.tmod y 400 + (Y - year))
    (ey5 : y5 = Int.tmod y4 400)
    (ey6 : y6 = if y5 < 0 then wrap_long (y5 + 400) else y5)
    (ey7 : y7 = y6 / 4)
    (ey8 : y8 = Int.tdiv y7 25) :
    (0 ≤ y6 ∧ y6 < 400) ∧ (0 ≤ y8 ∧ y8 < 4) ∧
    wrap_long (wrap_long (wrap_long
      ((if y5 < 0 then
          wrap_long (wrap_long (wrap_long (d1 + c1) + wrap_long (146097 * Int.tdiv y4 400)) -
            146097)
        else wrap_long (wrap_long (d1 + c1) + wrap_long (146097 * Int.tdiv y4 400))) +
        365 * (y6 % 4)) + wrap_long (1461 * Int.tmod y7 25)) + 36524 * (y8 % 4)) =
      365 * Y + Y / 4 - Y / 100 + Y / 400 + c1 + day - 678882 := by
  obtain ⟨f1, f1a, f1b⟩ := tdiv_tmod_400 y
  obtain ⟨f3, f3a, f3b⟩ := tdiv_tmod_400 y4
  have hq : -2500000000000 ≤ Int.tdiv y 400 ∧ Int.tdiv y 400 ≤ 2500000000000 := by omega
  have hq4 : -1000000000000 ≤ Int.tdiv y4 400 ∧ Int.tdiv y4 400 ≤ 1000000000000 := by omega
  have ed1a : d1 = day - 678882 + 146097 * Int.tdiv y 400 := by
    rw [ed1, wrap_long_small (day - 678882) (by omega) (by omega),
      wrap_long_small (146097 * Int.tdiv y 400) (by omega) (by omega),
      wrap_long_small _ (by omega) (by omega)]
  have ey6a : y6 = if y5 < 0 then y5 + 400 else y5 := by
    rw [ey6, wrap_long_small (y5 + 400) (by omega) (by omega)]
  have hy6 : 0 ≤ y6 ∧ y6 < 400 := by rw [ey6a]; split_ifs <;> omega
  rw [Int.tdiv_eq_ediv (by omega) (by norm_num)] at ey8
  have hmod : Int.tmod y7 25 = y7 % 25 := Int.tmod_eq_emod (by omega) (by norm_num)
  have hd1 : -1000000000000000000 ≤ d1 ∧ d1 ≤ 1000000000000000000 := by omega
  have hc6 : 0 ≤ y6 % 4 ∧ y6 % 4 < 4 := by omega
  have hc7 : 0 ≤ y7 % 25 ∧ y7 % 25 < 25 := by omega
  have hc8 : 0 ≤ y8 % 4 ∧ y8 % 4 < 4 := by omega
  refine ⟨hy6, by omega, ?_⟩
  rw [hmod, wrap_long_sums d1 _ _ hd1 hc1 hq4]
  by_cases h5 : y5 < 0
  · have key := cycle_formula (Int.tdiv y 400 + Int.tdiv y4 400 - 1) y6 Y hy6.1 hy6.2
      (by rw [ey6a, if_pos h5]; omega)
    rw [if_pos h5, wrap_long_small (d1 + c1 + 146097 * Int.tdiv y4 400 - 146097)
      (by omega) (by omega),
      wrap_long_cycles _ _ _ _ (by omega) hc6 hc7 hc8, key, ey8, ey7, ed1a]
    omega
  · have key := cycle_formula (Int.tdiv y 400 + Int.tdiv y4 400) y6 Y hy6.1 hy6.2
      (by rw [ey6a, if_neg h5]; omega)
    rw [if_neg h5, wrap_long_cycles _ _ _ _ (by omega) hc6 hc7 hc8, key, ey8, ey7, ed1a]
    omega

/-- With year, month and day of magnitude up to `10 ^ 15` no `long` result of
`cal_mjd` leaves 64 bits: the wrapped day count is the exact one. -/
theorem cal_mjd_days_wrap_eq (t : cal_datetime_t)
    (hy : -1000000000000000 ≤ t.year ∧ t.year ≤ 1000000000000000)
    (hm : -1000000000000000 ≤ t.mon ∧ t.mon ≤ 1000000000000000)
    (hd : -1000000000000000 ≤ t.day ∧ t.day ≤ 1000000000000000) :
    cal_mjd_days_wrap t = cal_mjd_days t := by
  rw [cal_mjd_days_closed]
  unfold cal_mjd_days_wrap
  lift_lets
  extract_lets d m y d1 y1 y2 m2 y3 m3 y4 m4 y5 y6 y7 y8
  have f1 := tdiv_tmod_400 y
  obtain ⟨hm4, hM, hY4⟩ := wrap_long_fold t.mon y1 m y2 m2 y3 m3 y4 m4 hm
    ⟨f1.2.1, f1.2.2⟩ rfl rfl rfl rfl rfl rfl rfl
  have hc1 : 0 ≤ (306 * m4 + 5) / 10 ∧ (306 * m4 + 5) / 10 ≤ 337 := by omega
  have hYb : -100000000000000 ≤ t.year + (t.mon - 3) / 12 - t.year ∧
      t.year + (t.mon - 3) / 12 - t.year ≤ 100000000000000 := by omega
  obtain ⟨hy6, hy8, hsum⟩ := wrap_long_days t.year (t.year + (t.mon - 3) / 12) t.day d1 y y4
    y5 y6 y7 y8 ((306 * m4 + 5) / 10) hy hYb hd hc1 rfl rfl
    (hY4.trans (by show Int.tmod y 400 + (t.mon - 3) / 12 = _; ring)) rfl rfl (shr_2 y6) rfl
  rw [table_montab m4 hm4.1 hm4.2, land_3 y6 hy6.1, land_3 y8 hy8.1,
    table_times365 _ (by omega) (by omega), table_times36524 _ (by omega) (by omega)]
  simp only [Option.bind_eq_bind, Option.some_bind, Option.pure_def, Option.some.injEq]
  rw [hsum, hM]

/-- Magnitude of the reference day count for year and day of magnitude up to
`10 ^ 13`: below `2 ^ 53`. -/
theorem mjd_reference_bound (y m d : Int) (h1 : 1 ≤ m) (h12 : m ≤ 12)
    (hy : -10000000000000 ≤ y ∧ y ≤ 10000000000001)
    (hd : -10000000000000 ≤ d ∧ d ≤ 10000000000000) :
    -9007199254740992 < mjd_reference y m d ∧ mjd_reference y m d < 9007199254740992 := by
  rw [mjd_reference_eq _ _ _ h1 h12]
  split_ifs <;> omega

/-- For a month in `1..12` and year and day of magnitude up to `10 ^ 13` the
day count computed in 64 bits is the reference, and its conversion to `double`
is exact. -/
theorem cal_mjd_days_wrap_reference (y m d hh mi s off : Int) (h1 : 1 ≤ m) (h12 : m ≤ 12)
    (hy : -10000000000000 ≤ y ∧ y ≤ 10000000000001)
    (hd : -10000000000000 ≤ d ∧ d ≤ 10000000000000) :
    cal_mjd_days_wrap ⟨y, m, d, hh, mi, s, off⟩ = some (mjd_reference y m d) ∧
    double_of_long (mjd_reference y m d) = mjd_reference y m d := by
  have hb := mjd_reference_bound y m d h1 h12 hy hd
  refine ⟨?_, double_of_long_exact _ hb.1 hb.2⟩
  rw [cal_mjd_days_wrap_eq ⟨y, m, d, hh, mi, s, off⟩ ⟨by simp only; omega, by simp only; omega⟩
    ⟨by simp only; omega, by simp only; omega⟩ ⟨by simp only; omega, by simp only; omega⟩]
  exact cal_mjd_days_eq ⟨y, m, d, hh, mi, s, off⟩ h1 h12

/-! ## Modified Julian Date: claim C6 -/

/-- A day of a valid Gregorian date is at most `31`. -/
theorem valid_gregorian_day (t : cal_datetime_t) (hv : valid_gregorian t) :
    1 ≤ t.day ∧ t.day ≤ 31 := by
  obtain ⟨-, -, hd1, hd2⟩ := hv
  refine ⟨hd1, le_trans hd2 ?_⟩
  unfold days_in_month
  split_ifs <;> norm_num

/-- C13, as stated for every year from `100` on, fails for large years: the
valid date `100000000000000-01-01` has the day count `36524249999321059`, which
`cal_mjd` returns as the `double` `36524249999321056`, so that `(D + 2) mod 7`
is `2`, while `cal_weekday` is `5`. -/
theorem C13_weekday_counterexample :
    (100 : Int) ≤ 100000000000000 ∧
    valid_gregorian ⟨100000000000000, 1, 1, 0, 0, 0, 0⟩ ∧
    cal_mjd_days_wrap ⟨100000000000000, 1, 1, 0, 0, 0, 0⟩ = some 36524249999321059 ∧
    double_of_long 36524249999321059 = 36524249999321056 ∧
    cal_weekday ⟨100000000000000, 1, 1, 0, 0, 0, 0⟩ = 5 ∧
    (double_of_long 36524249999321059 + 2) % 7 = 2 ∧
    cal_weekday ⟨100000000000000, 1, 1, 0, 0, 0, 0⟩ ≠ (double_of_long 36524249999321059 + 2) % 7 := by
  refine ⟨by decide, ?_, by decide, by decide, by decide, by decide, by decide⟩
  unfold valid_gregorian days_in_month
  decide

/-- C13, amended: for every valid Gregorian date with year from `100` to
`10 ^ 13`, `cal_weekday` is `(D + 2) mod 7` where `D` is the integer day number
given by `cal_mjd` at `00:00:00` (the day count, also when computed in 64 bits,
converted to `double` exactly); it is `5` (Saturday) for `2000-01-01`; and it
advances by one modulo seven from each day to the next. -/
theorem C13_weekday_mjd (t : cal_datetime_t)
    (hy : 100 ≤ t.year ∧ t.year ≤ 10000000000000) (hv : valid_gregorian t) :
    (∃ D : Int, cal_mjd { t with hour := 0, min := 0, sec := 0 } = some (D : ℚ) ∧
      cal_mjd_days_wrap { t with hour := 0, min := 0, sec := 0 } = some D ∧
      double_of_long D = D ∧ cal_weekday t = (D + 2) % 7) ∧
    cal_weekday ⟨2000, 1, 1, 0, 0, 0, 0⟩ = 5 ∧
    cal_weekday (next_day t) = (cal_weekday t + 1) % 7 := by
  obtain ⟨hv2, hy2, hD⟩ := next_day_spec t hv
  have hday := valid_gregorian_day t hv
  have hw : ∀ r : cal_datetime_t, 100 ≤ r.year → valid_gregorian r →
      cal_weekday r = (mjd_reference r.year r.mon r.day + 2) % 7 := by
    rintro ⟨y, m, d, hh, mi, s, o⟩ h100 ⟨h1, h12, hd1, -⟩
    exact cal_weekday_eq y m d h100 h1 h12 hd1 hh mi s o
  have hwrap := cal_mjd_days_wrap_reference t.year t.mon t.day 0 0 0 t.off hv.1 hv.2.1
    ⟨by omega, by omega⟩ ⟨by omega, by omega⟩
  refine ⟨⟨mjd_reference t.year t.mon t.day, ?_, hwrap.1, hwrap.2, hw t hy.1 hv⟩, by decide, ?_⟩
  · rw [cal_mjd_eq ⟨t.year, t.mon, t.day, 0, 0, 0, t.off⟩ hv.1 hv.2.1]
    simp [cal_mjd_secs]
  · rw [hw _ (by omega) hv2, hw t hy.1 hv, hD]
    omega

/-- Witness of the amended C13 at `2011-12-31`, a Saturday followed by a
Sunday. -/
theorem C13_weekday_mjd_witness :
    (∃ D : Int, cal_mjd { (⟨2011, 12, 31, 10, 0, 0, 0⟩ : cal_datetime_t) with
        hour := 0, min := 0, sec := 0 } = some (D : ℚ) ∧
      cal_mjd_days_wrap { (⟨2011, 12, 31, 10, 0, 0, 0⟩ : cal_datetime_t) with
        hour := 0, min := 0, sec := 0 } = some D ∧
      double_of_long D = D ∧ cal_weekday ⟨2011, 12, 31, 10, 0, 0, 0⟩ = (D + 2) % 7) ∧
    cal_weekday ⟨2000, 1, 1, 0, 0, 0, 0⟩ = 5 ∧
    cal_weekday (next_day ⟨2011, 12, 31, 10, 0, 0, 0⟩) =
      (cal_weekday ⟨2011, 12, 31, 10, 0, 0, 0⟩ + 1) % 7 :=
  C13_weekday_mjd ⟨2011, 12, 31, 10, 0, 0, 0⟩ (by decide)
    (by unfold valid_gregorian days_in_month; decide)

/-! ## Modified Julian Date: every table read is in range, claim C20 -/

/-- C20: for every record, whatever its field values, with every `long` result
reduced to 64 bits, the three table reads of `cal_mjd` are in range: the folded
month index is in `0..11` for `_montab` and both cycle indexes are in `0..3`
for `_times365` and `_times36524`; so each read succeeds and the day count is
defined, a value of type `long`.  At the month `-2 ^ 63`, where `mon - 1`
wraps, the indexes are `5, 2, 2`; at the year `2 ^ 63 - 1`, where the product
by `146097` wraps, the day count is `-6986704317918171981`. -/
theorem C20_mjd_total (t : cal_datetime_t) :
    (0 ≤ (cal_mjd_indexes t).1 ∧ (cal_mjd_indexes t).1 ≤ 11) ∧
    (0 ≤ (cal_mjd_indexes t).2.1 ∧ (cal_mjd_indexes t).2.1 ≤ 3) ∧
    (0 ≤ (cal_mjd_indexes t).2.2 ∧ (cal_mjd_indexes t).2.2 ≤ 3) ∧
    (table_at _montab (cal_mjd_indexes t).1).isSome = true ∧
    (table_at _times365 (cal_mjd_indexes t).2.1).isSome = true ∧
    (table_at _times36524 (cal_mjd_indexes t).2.2).isSome = true ∧
    (∃ d : Int, cal_mjd_days_wrap t = some d ∧
      -9223372036854775808 ≤ d ∧ d ≤ 9223372036854775807) ∧
    cal_mjd_indexes ⟨2000, -9223372036854775808, 1, 0, 0, 0, 0⟩ = (5, 2, 2) ∧
    cal_mjd_days_wrap ⟨9223372036854775807, 1, 1, 0, 0, 0, 0⟩ =
      some (-6986704317918171981) := by
  obtain ⟨b1, b2, b3⟩ := cal_mjd_indexes_range t
  refine ⟨b1, b2, b3, ?_, ?_, ?_, cal_mjd_days_wrap_defined t, by decide, by decide⟩
  · rw [table_montab _ b1.1 (by omega)]; rfl
  · rw [table_times365 _ b2.1 (by omega)]; rfl
  · rw [table_times36524 _ b3.1 (by omega)]; rfl

end Calby
